import Mathlib

/-!
# Verification of the nextjs-pdf PDF merger (`src/python/pdf_merger.py`)

This file gives a shallow embedding of the PDF-merging core of the
repository (file selection and sorting, bookmark-title resolution,
hierarchical table-of-contents construction, the streaming merge loop and
the directory walker) and proves the specification claims about it.

Modelling conventions:
* Python strings are Lean `String`s (ASCII behaviour; `str.isdigit`,
  `str.lower`, … are modelled on ASCII characters, which covers every
  string the program manipulates).
* The filesystem is a pure value: a directory is a list of entries, each
  carrying its name, an `isFile` flag, an optional modification time
  (`none` models `os.path.getmtime` raising), and the result of opening
  the file with `fitz.open` — either an error message (corrupt file) or a
  page count.
* `fitz` (PyMuPDF) behaviour that the code relies on is modelled
  explicitly: `Document.save` raises `ValueError("cannot save with zero
  pages")` on an empty document, `insert_pdf` appends all pages of the
  inserted document, and `set_toc` stores the given outline list.
  Logging, progress callbacks, memory monitoring and `os.makedirs` have
  no observable effect on the values the claims speak about and are not
  modelled.
-/

/-- `str.isdigit` on ASCII strings: non-empty and all characters `0`-`9`. -/
def pyIsDigit (s : String) : Bool :=
  !s.toList.isEmpty && s.toList.all Char.isDigit

/-- Decimal value of a digit string, as computed by Python `int` on an
all-digit string. -/
def digitsVal (cs : List Char) : Nat :=
  cs.foldl (fun a c => a * 10 + (c.toNat - 48)) 0

/-- The digit part of a CPython decimal integer literal: a non-empty
digit sequence in which single underscores may occur between digits
(PEP 515) — no leading, trailing or doubled underscore. -/
def digitsU : List Char → Bool
  | [] => false
  | [c] => c.isDigit
  | c :: '_' :: cs => c.isDigit && digitsU cs
  | c :: c2 :: cs => c.isDigit && digitsU (c2 :: cs)

/-- Sign handling of Python `int`: one optional leading `+` or `-`. -/
def pyIntCore (cs : List Char) : List Char × Int :=
  match cs with
  | '+' :: rest => (rest, 1)
  | '-' :: rest => (rest, -1)
  | rest => (rest, 1)

/-- Python `int(s)` on ASCII strings, per the CPython grammar: optional
surrounding whitespace, one optional sign, then decimal digits with
single underscores allowed between digits; `none` models `ValueError`.
(Non-ASCII digit and whitespace characters are outside the ASCII model.) -/
def pyInt? (s : String) : Option Int :=
  let stripped := ((s.toList.dropWhile Char.isWhitespace).reverse.dropWhile
    Char.isWhitespace).reverse
  let signed := pyIntCore stripped
  if digitsU signed.1 then
    some (signed.2 * (digitsVal (signed.1.filter (fun c => ¬(c = '_'))) : Int))
  else none

/-- Python `s.lstrip('0')`. -/
def pyLStrip0 (s : String) : String :=
  String.mk (s.toList.dropWhile (fun c => c = '0'))

/-- Python `s.lstrip('0') or '0'`. -/
def lstrip0OrZero (s : String) : String :=
  if pyLStrip0 s = "" then "0" else pyLStrip0 s

/-- Python `s.startswith('0')`. -/
def pyStartsWith0 (s : String) : Bool :=
  match s.toList with
  | [] => false
  | c :: _ => c = '0'

/-- Whether `sub` occurs as a contiguous run inside `l`. -/
def infixOf (sub : List Char) : List Char → Bool
  | [] => sub.isEmpty
  | c :: cs => sub.isPrefixOf (c :: cs) || infixOf sub cs

/-- Python `sub in s` (substring containment). -/
def pyContains (s sub : String) : Bool :=
  infixOf sub.toList s.toList

/-- Python `s.endswith(suf)`. -/
def pyEndsWith (s suf : String) : Bool :=
  suf.toList.isSuffixOf s.toList

/-- Left-to-right, non-overlapping replacement of the pattern
`p :: ps` by `rep`, as performed by Python `str.replace`. -/
def replaceAll (p : Char) (ps rep : List Char) : List Char → List Char
  | [] => []
  | c :: cs =>
    if (p :: ps).isPrefixOf (c :: cs) then
      rep ++ replaceAll p ps rep (cs.drop ps.length)
    else
      c :: replaceAll p ps rep cs
termination_by cs => cs.length
decreasing_by
  all_goals simp only [List.length_drop, List.length_cons]
  all_goals omega

/-- Python `s.replace(pat, rep)`.  The program never calls `replace` with
an empty pattern, so that case is mapped to the identity. -/
def pyReplace (s pat rep : String) : String :=
  match pat.toList with
  | [] => s
  | p :: ps => String.mk (replaceAll p ps rep.toList s.toList)

/-- The engine-suffix cleanup `filename.replace('_puppeteer.pdf', '.pdf')`
performed throughout the source.  The Python code guards the call with
`'_puppeteer.pdf' in filename`, which is redundant because `replace` is
the identity when the pattern does not occur; the guard is kept for
faithfulness. -/
def stripPuppeteer (f : String) : String :=
  if pyContains f ("_puppeteer.pdf") then
    pyReplace f ("_puppeteer.pdf") (".pdf")
  else f

/-- Python `s.split(sep, 1)` on character lists: the part before the
first separator, and (when the separator occurs) the remainder. -/
def splitFirst (sep : Char) : List Char → List Char × Option (List Char)
  | [] => ([], none)
  | c :: cs =>
    if c = sep then ([], some cs)
    else
      let r := splitFirst sep cs
      (c :: r.1, r.2)

/-- Whether a string contains a dash (`'-' in s`). -/
def hasDash (s : String) : Bool :=
  (splitFirst '-' s.toList).2.isSome

/-- The prefix before the first `'-'` of the suffix-stripped filename
(`filename.replace('_puppeteer.pdf', '.pdf').split('-', 1)[0]`). -/
def sortPfx (f : String) : String :=
  String.mk (splitFirst '-' (stripPuppeteer f).toList).1

/-- The 8-hex-digit check from `get_sort_key`:
`len(prefix) == 8 and all(c in '0123456789abcdef' for c in prefix.lower())`. -/
def isHexHash (s : String) : Bool :=
  s.toList.length = 8 &&
    (s.toList.map Char.toLower).all (fun c => ("0123456789abcdef").toList.contains c)

/-- Result of `fitz.open` on a path: a page count, or the text of the
raised exception. -/
inductive OpenResult where
  | opened (pages : Nat)
  | failed (msg : String)
deriving Repr, DecidableEq

/-- One filesystem entry of a directory: its name, whether it is a
regular file, its modification time (`none` when `os.path.getmtime`
fails), and the outcome of `fitz.open` on it — an error message for a
corrupt/unopenable file, or its page count. -/
structure Entry where
  name : String
  isFile : Bool
  mtime : Option Int
  content : OpenResult
deriving Repr, DecidableEq

/-- A directory: whether it exists, and its `os.listdir` entries. -/
structure Dir where
  present : Bool
  entries : List Entry
deriving Repr, DecidableEq

/-- Look up a directory entry by name (resolution of
`os.path.join(directory_path, filename)`). -/
def entryOf (d : Dir) (f : String) : Option Entry :=
  d.entries.find? (fun e => e.name = f)

/-- `os.path.getmtime` with the fallback to `0` used by `get_sort_key`
(a missing file or unreadable timestamp lands in the `except` branch). -/
def mtimeOrZero (d : Dir) (f : String) : Int :=
  ((entryOf d f).bind Entry.mtime).getD 0

/-- The hash/other tail of `get_sort_key`, reachable by fall-through from
both the zero-padded branch and the `ValueError` branch. -/
def hexOrOther (d : Dir) (filename : String) : Nat × Int × String :=
  if isHexHash (sortPfx filename) then (1, mtimeOrZero d filename, filename)
  else (2, 0, filename)

/-- The sort key of `_get_pdf_files.get_sort_key`, translated from the
source.  Python's `split('-', 1)` always returns a non-empty list, so the
`len(parts) == 0` branch returning `(999999, 0, filename)` is
unreachable; `int` raises only `ValueError`, which the inner handler
catches (the `none` branch here), so the outer exception handler is
unreachable as well and is not modelled. -/
def get_sort_key (d : Dir) (filename : String) : Nat × Int × String :=
  if pyIsDigit (sortPfx filename) then
    (0, (digitsVal (sortPfx filename).toList : Int), filename)
  else
    match pyInt? (lstrip0OrZero (sortPfx filename)) with
    | some num =>
      if pyStartsWith0 (sortPfx filename) && (sortPfx filename).toList.length > 1 then
        (0, num, filename)
      else hexOrOther d filename
    | none => hexOrOther d filename

/-- Lexicographic comparison of sort keys, i.e. Python tuple `<=` on
`(bucket, secondaryKey, filename)`. -/
def keyLE (a b : Nat × Int × String) : Bool :=
  decide (a.1 < b.1 ∨ (a.1 = b.1 ∧
    (a.2.1 < b.2.1 ∨ (a.2.1 = b.2.1 ∧ a.2.2 ≤ b.2.2))))

/-- The eligibility filter of `_get_pdf_files`: names ending in `.pdf`
that are regular files; a missing directory yields the empty list. -/
def eligibleFiles (d : Dir) : List String :=
  if d.present then
    (d.entries.filter (fun e => pyEndsWith e.name (".pdf") && e.isFile)).map Entry.name
  else []

/-- `_get_pdf_files`, translated from the source.  Python's
`files.sort(key=get_sort_key)` sorts ascending by the key tuple; since
the tertiary key component is the filename itself, any sorted permutation
is the Python result, and insertion sort realises it. -/
def get_pdf_files (d : Dir) (engineFilter : Option String) : List String :=
  if !d.present then []
  else
    let files := eligibleFiles d
    let files := match engineFilter with
      | some ef =>
        if ef = "puppeteer" then files.filter (fun f => pyContains f ("_puppeteer.pdf"))
        else if ef = "single" then files.filter (fun f => !pyContains f ("_puppeteer.pdf"))
        else files
      | none => files
    if files.isEmpty then []
    else files.insertionSort (fun a b => keyLE (get_sort_key d a) (get_sort_key d b) = true)

/-- The composite sort key exactly as the original claim words it:
bucket 0 with the integer value of the prefix when the (suffix-stripped)
prefix before the first `'-'` is entirely digits; bucket 1 with the file
modification time (0 if unreadable) when the prefix is exactly 8 hex
characters; bucket 2 with secondary key 0 otherwise.  (This key lacks
the source's zero-padded `int` fallback and does not govern the output;
see the C1 counterexample.) -/
def claimKey (d : Dir) (filename : String) : Nat × Int × String :=
  if pyIsDigit (sortPfx filename) then
    (0, (digitsVal (sortPfx filename).toList : Int), filename)
  else if isHexHash (sortPfx filename) then
    (1, mtimeOrZero d filename, filename)
  else
    (2, 0, filename)

/-- The composite sort key as the amended claim words it: an all-digit
prefix gets bucket 0 keyed by its integer value; otherwise a prefix that
starts with `'0'`, is longer than one character and whose zero-stripped
form Python's `int` accepts (optional sign, surrounding whitespace,
underscore digit grouping) also gets bucket 0 keyed by that parsed
value; an 8-hex-character prefix gets bucket 1 keyed by the file's
modification time (0 if unreadable); any other prefix gets bucket 2 with
secondary key 0. -/
def amendedKey (d : Dir) (filename : String) : Nat × Int × String :=
  if pyIsDigit (sortPfx filename) then
    (0, (digitsVal (sortPfx filename).toList : Int), filename)
  else
    match pyInt? (lstrip0OrZero (sortPfx filename)) with
    | some num =>
      if pyStartsWith0 (sortPfx filename) && (sortPfx filename).toList.length > 1 then
        (0, num, filename)
      else if isHexHash (sortPfx filename) then
        (1, mtimeOrZero d filename, filename)
      else
        (2, 0, filename)
    | none =>
      if isHexHash (sortPfx filename) then
        (1, mtimeOrZero d filename, filename)
      else
        (2, 0, filename)

theorem get_sort_key_eq_amendedKey (d : Dir) (f : String) :
    get_sort_key d f = amendedKey d f := by
  unfold get_sort_key amendedKey hexOrOther
  rfl

theorem keyLE_total (a b : Nat × Int × String) :
    keyLE a b = true ∨ keyLE b a = true := by
  unfold keyLE
  simp only [decide_eq_true_eq]
  rcases lt_trichotomy a.1 b.1 with h | h | h
  · exact Or.inl (Or.inl h)
  · rcases lt_trichotomy a.2.1 b.2.1 with h2 | h2 | h2
    · exact Or.inl (Or.inr ⟨h, Or.inl h2⟩)
    · rcases le_total a.2.2 b.2.2 with h3 | h3
      · exact Or.inl (Or.inr ⟨h, Or.inr ⟨h2, h3⟩⟩)
      · exact Or.inr (Or.inr ⟨h.symm, Or.inr ⟨h2.symm, h3⟩⟩)
    · exact Or.inr (Or.inr ⟨h.symm, Or.inl h2⟩)
  · exact Or.inr (Or.inl h)

theorem keyLE_trans {a b c : Nat × Int × String}
    (h1 : keyLE a b = true) (h2 : keyLE b c = true) : keyLE a c = true := by
  unfold keyLE at h1 h2 ⊢
  simp only [decide_eq_true_eq] at h1 h2 ⊢
  rcases h1 with h1 | ⟨e1, h1⟩
  · rcases h2 with h2 | ⟨e2, h2⟩
    · exact Or.inl (h1.trans h2)
    · exact Or.inl (e2 ▸ h1)
  · rcases h2 with h2 | ⟨e2, h2⟩
    · exact Or.inl (e1 ▸ h2)
    · refine Or.inr ⟨e1.trans e2, ?_⟩
      rcases h1 with h1 | ⟨f1, h1⟩
      · rcases h2 with h2 | ⟨f2, h2⟩
        · exact Or.inl (h1.trans h2)
        · exact Or.inl (f2 ▸ h1)
      · rcases h2 with h2 | ⟨f2, h2⟩
        · exact Or.inl (f1 ▸ h2)
        · exact Or.inr ⟨f1.trans f2, h1.trans h2⟩

/-- The concrete directory of the claim's sort-order example. -/
def c1ExampleDir : Dir :=
  ⟨true,
    [⟨"2-b.pdf", true, none, OpenResult.opened 1⟩,
     ⟨"1-a.pdf", true, none, OpenResult.opened 1⟩,
     ⟨"10-c.pdf", true, none, OpenResult.opened 1⟩]⟩

/-- A directory with an underscore-grouped numeric prefix: Python
computes `int("01_2".lstrip("0")) = int("1_2") = 12`, so the source
assigns `01_2-a.pdf` bucket 0 with key 12, while the claim's key
assigns it bucket 2. -/
def c1CounterDir : Dir :=
  ⟨true,
    [⟨"01_2-a.pdf", true, none, OpenResult.opened 1⟩,
     ⟨"7-a.pdf", true, none, OpenResult.opened 1⟩,
     ⟨"20-c.pdf", true, none, OpenResult.opened 1⟩]⟩

/-- **C1 counterexample.** On `["01_2-a.pdf", "7-a.pdf", "20-c.pdf"]` the
selector returns `["7-a.pdf", "01_2-a.pdf", "20-c.pdf"]` — the
zero-padded fallback parses `"1_2"` as 12, placing `01_2-a.pdf` in
bucket 0 between 7 and 20 — and that output is not sorted by the claim's
composite key, which puts `01_2-a.pdf` in bucket 2 after `20-c.pdf`: the
claim's universally-quantified sort-order statement is false. -/
theorem c1_counterexample :
    get_pdf_files c1CounterDir none = ["7-a.pdf", "01_2-a.pdf", "20-c.pdf"] ∧
    ¬ List.Pairwise
      (fun a b => keyLE (claimKey c1CounterDir a) (claimKey c1CounterDir b) = true)
      (get_pdf_files c1CounterDir none) := by
  refine ⟨by decide, ?_⟩
  intro hp
  rw [show get_pdf_files c1CounterDir none = ["7-a.pdf", "01_2-a.pdf", "20-c.pdf"]
    from by decide] at hp
  have h1 := (List.pairwise_cons.mp hp).2
  have h2 := (List.pairwise_cons.mp h1).1 ("20-c.pdf") (List.mem_cons_self _ _)
  revert h2
  decide

/-- **C1 (amended).** For every directory, the File Selector returns the
eligible `.pdf` filenames sorted ascending by the composite key
`(bucket, secondaryKey, filename)` with the source's full bucket rule:
an all-digit prefix (after stripping the `_puppeteer` suffix, before the
first `'-'`) gets bucket 0 keyed by its integer value; a prefix starting
with `'0'`, longer than one character, whose zero-stripped form Python's
`int` accepts also gets bucket 0 keyed by that parsed value; an
8-hex-character prefix gets bucket 1 keyed by the file's modification
time (0 if unreadable); any other prefix gets bucket 2 with secondary
key 0.  In particular `["2-b.pdf", "1-a.pdf", "10-c.pdf"]` is returned
as `["1-a.pdf", "2-b.pdf", "10-c.pdf"]`. -/
theorem c1_selector_sorted (d : Dir) :
    (get_pdf_files d none).Perm (eligibleFiles d) ∧
    List.Pairwise (fun a b => keyLE (amendedKey d a) (amendedKey d b) = true)
      (get_pdf_files d none) ∧
    get_pdf_files c1ExampleDir none = ["1-a.pdf", "2-b.pdf", "10-c.pdf"] := by
  refine ⟨?_, ?_, by decide⟩
  · unfold get_pdf_files
    cases hp : d.present with
    | false => simp [eligibleFiles, hp]
    | true =>
      simp only [hp, Bool.not_true, Bool.false_eq_true, if_false]
      cases he : (eligibleFiles d).isEmpty with
      | true =>
        simp only [he, if_true]
        rw [List.isEmpty_iff] at he
        rw [he]
      | false =>
        simp only [he, Bool.false_eq_true, if_false]
        exact List.perm_insertionSort _ _
  · unfold get_pdf_files
    cases hp : d.present with
    | false => simp
    | true =>
      simp only [hp, Bool.not_true, Bool.false_eq_true, if_false]
      cases he : (eligibleFiles d).isEmpty with
      | true => simp
      | false =>
        simp only [he, Bool.false_eq_true, if_false]
        haveI : IsTotal String
            (fun a b => keyLE (get_sort_key d a) (get_sort_key d b) = true) :=
          ⟨fun a b => keyLE_total _ _⟩
        haveI : IsTrans String
            (fun a b => keyLE (get_sort_key d a) (get_sort_key d b) = true) :=
          ⟨fun _ _ _ h1 h2 => keyLE_trans h1 h2⟩
        have hs := List.sorted_insertionSort
          (r := fun a b => keyLE (get_sort_key d a) (get_sort_key d b) = true)
          (eligibleFiles d)
        refine hs.imp ?_
        intro a b hab
        rw [get_sort_key_eq_amendedKey, get_sort_key_eq_amendedKey] at hab
        exact hab

/-- Python-dict lookup (`m.get(k)` / `m[k]`); keys are unique because
maps are only built through `dset`. -/
def dget {β : Type} (m : List (String × β)) (k : String) : Option β :=
  (m.find? (fun p => p.1 = k)).map Prod.snd

/-- Python-dict assignment `m[k] = v`: replaces the value in place when
the key is present, appends otherwise. -/
def dset {β : Type} (m : List (String × β)) (k : String) (v : β) : List (String × β) :=
  if m.any (fun p => p.1 = k) then
    m.map (fun p => if p.1 = k then (k, v) else p)
  else m ++ [(k, v)]

/-- Index of the last `'.'` in a character list, if any. -/
def lastDotIdx (cs : List Char) : Option Nat :=
  match cs.reverse.findIdx? (fun c => c = '.') with
  | none => none
  | some k => some (cs.length - 1 - k)

/-- `os.path.splitext(s)[0]` for a bare filename (no path separators):
drop the last extension unless every character before the last dot is a
dot (leading-dot names keep their dots). -/
def splitextRoot (cs : List Char) : List Char :=
  match lastDotIdx cs with
  | none => cs
  | some i => if (cs.take i).all (fun c => c = '.') then cs else cs.take i

/-- Python `s.zfill(n)` on digit strings. -/
def zfill (n : Nat) (s : String) : String :=
  if n ≤ s.toList.length then s
  else String.mk (List.replicate (n - s.toList.length) '0' ++ s.toList)

/-- Python `s.capitalize()`: first character upper-cased, the rest
lower-cased. -/
def pyCapitalize (s : String) : String :=
  match s.toList with
  | [] => ""
  | c :: cs => String.mk (c.toUpper :: cs.map Char.toLower)

/-- Python `s.split()` (no argument): split on whitespace runs, dropping
empty words. -/
def pySplitWs (s : String) : List String :=
  ((List.splitOnP (fun c => c.isWhitespace) s.toList).filter
    (fun w => !w.isEmpty)).map String.mk

/-- The candidate-key list of `_create_bookmark_title`: the raw prefix,
and for an all-digit prefix additionally `str(num)`, `str(num).zfill(3)`,
`str(num).zfill(2)` — in that source order. -/
def possibleKeys (pfx : String) : List String :=
  if pyIsDigit pfx then
    [pfx, toString (digitsVal pfx.toList),
     zfill 3 (toString (digitsVal pfx.toList)),
     zfill 2 (toString (digitsVal pfx.toList))]
  else [pfx]

/-- `_create_bookmark_title`, translated from the source.  The outer
exception handler (returning `splitext(filename)[0]`) is unreachable in
the model, because none of the string operations can raise. -/
def create_bookmark_title (filename : String)
    (articleTitles : List (String × String)) : String :=
  let cleaned := stripPuppeteer filename
  match (splitFirst '-' cleaned.toList).2 with
  | none => String.mk (splitextRoot cleaned.toList)
  | some namePart =>
    let pfx := String.mk (splitFirst '-' cleaned.toList).1
    match (possibleKeys pfx).findSome? (fun k => dget articleTitles k) with
    | some t => t
    | none =>
      let cleanedName := splitextRoot namePart
      let spaced := (cleanedName.map (fun c => if c = '-' then ' ' else c)).map
        (fun c => if c = '_' then ' ' else c)
      String.intercalate (" ")
        ((pySplitWs (String.mk spaced)).map pyCapitalize)

/-- One page reference of a section (`{"index": ...}`); `none` models a
missing `index` field. -/
structure PageRef where
  index : Option String
deriving Repr, DecidableEq

/-- One section of `sectionStructure.json`; a missing `title` field is
modelled by `none` (the source substitutes `'Untitled Section'`). -/
structure TocSection where
  title : Option String
  pages : List PageRef
deriving Repr, DecidableEq

/-- The parsed `sectionStructure.json`; `sections = none` models a JSON
object without a `sections` key. -/
structure SectionStructure where
  sections : Option (List TocSection)
deriving Repr, DecidableEq

/-- The fields of the `PDFMerger` object that the merge path reads:
the loaded `articleTitles.json` mapping, the loaded
`sectionStructure.json` (with `none` covering both an absent file and an
empty JSON object, which are equally falsy in the `if
self.section_structure:` guards), and the `pdf.bookmarks` configuration
flag. -/
structure MergerState where
  articleTitles : List (String × String)
  sectionStructure : Option SectionStructure
  bookmarksEnabled : Bool
deriving Repr, DecidableEq

/-- One PyMuPDF outline entry `[level, title, page, {"kind": 1, "page":
link}]`: `page1` is the stored 1-based page number, `linkPage` the
0-based page of the link dictionary. -/
structure TocEntry where
  level : Nat
  title : String
  page1 : Nat
  linkPage : Nat
deriving Repr, DecidableEq

/-- The `file_page_map` construction of `_build_hierarchical_toc`:
cumulative start offsets over `files`, using `page_counts.get(filename,
0)`. -/
def filePageMap (files : List String) (pageCounts : List (String × Nat)) :
    List (String × Nat) :=
  (files.foldl
    (fun acc f => (dset acc.1 f acc.2, acc.2 + (dget pageCounts f).getD 0))
    (([] : List (String × Nat)), 0)).1

/-- The `index_to_file` reverse index of `_build_hierarchical_toc`
(`if file_index:` skips `None` and the empty string). -/
def indexToFile (files : List String) (fileToIndex : List (String × String)) :
    List (String × String) :=
  files.foldl
    (fun m f =>
      match dget fileToIndex f with
      | some fi => if fi = "" then m else dset m fi f
      | none => m)
    []

/-- Resolution of one section page reference: look the index up in the
reverse index, then the found file up in the page map; the resulting
title is `article_titles.get(index, "Page " + index)` and the page is the
file's start offset.  `none` models the `continue` branches. -/
def resolvePage (articleTitles i2f : List (String × String))
    (fpm : List (String × Nat)) (p : PageRef) : Option (String × Nat) :=
  match p.index with
  | none => none
  | some idx =>
    if idx = "" then none
    else
      match dget i2f idx with
      | none => none
      | some fn =>
        match dget fpm fn with
        | none => none
        | some pg => some ((dget articleTitles idx).getD (("Page ") ++ idx), pg)

/-- The outline entries one section contributes: nothing when no page
reference resolves; otherwise a level-1 entry at the first resolved
page's offset followed by one level-2 entry per resolved page. -/
def sectionEntries (articleTitles i2f : List (String × String))
    (fpm : List (String × Nat)) (sec : TocSection) : List TocEntry :=
  match sec.pages.filterMap (resolvePage articleTitles i2f fpm) with
  | [] => []
  | v :: vs =>
    ⟨1, sec.title.getD ("Untitled Section"), v.2 + 1, v.2⟩ ::
      (v :: vs).map (fun w => ⟨2, w.1, w.2 + 1, w.2⟩)

/-- `_build_hierarchical_toc`, translated from the source.  Returns
`none` (Python `None`) when no section structure with a `sections` key is
loaded, and `some entries` otherwise — possibly `some []`, which is falsy
for the caller. -/
def build_hierarchical_toc (ms : MergerState) (files : List String)
    (pageCounts : List (String × Nat)) (fileToIndex : List (String × String)) :
    Option (List TocEntry) :=
  match ms.sectionStructure with
  | none => none
  | some ss =>
    match ss.sections with
    | none => none
    | some sections =>
      let fpm := filePageMap files pageCounts
      let i2f := indexToFile files fileToIndex
      some (sections.foldl
        (fun toc sec => toc ++ sectionEntries ms.articleTitles i2f fpm sec) [])

/-- The mutable `self.stats` fields the merge loop updates. -/
structure RunStats where
  filesProcessed : Nat
  totalPages : Nat
  errors : List String
deriving Repr, DecidableEq

/-- The accumulating state of the fragment loop in `merge_pdfs_stream`:
the merged document's page count, the flat `toc` list, and the
`page_counts` / `file_to_index` dictionaries. -/
structure LoopState where
  mergedPages : Nat
  toc : List TocEntry
  pageCounts : List (String × Nat)
  fileToIndex : List (String × String)
  stats : RunStats
deriving Repr, DecidableEq

/-- The per-fragment error text `f"处理文件失败 {filename}: {e}"`. -/
def errFmt (filename msg : String) : String :=
  ("处理文件失败 ") ++ filename ++ (": ") ++ msg

/-- The prefix examined by the index-extraction step of the merge loop
(`cleaned_filename.split('-')[0] if '-' in cleaned_filename else ''`). -/
def mergeIndexPfx (f : String) : String :=
  if hasDash (stripPuppeteer f) then
    String.mk (splitFirst '-' (stripPuppeteer f).toList).1
  else ""

/-- The index-extraction step at the bottom of the merge loop:
strip the engine suffix, take the part before the first `'-'` (empty
when there is no dash), and for an all-digit prefix record
`str(int(prefix))` (leading zeros removed). -/
def fileIndexKey (f : String) : Option String :=
  if pyIsDigit (mergeIndexPfx f) then
    some (toString (digitsVal (mergeIndexPfx f).toList))
  else none

/-- One iteration of the fragment loop of `merge_pdfs_stream`.  A file
that vanished between listing and opening is skipped without recording an
error (the `os.path.exists` guard); a failed open records the formatted
error and changes nothing else; a zero-page document is skipped silently;
otherwise the pages are appended, the dictionaries updated and the flat
bookmark entry emitted. -/
def processFile (ms : MergerState) (d : Dir) (st : LoopState) (f : String) : LoopState :=
  match entryOf d f with
  | none => st
  | some e =>
    match e.content with
    | OpenResult.failed msg =>
      { st with stats := { st.stats with errors := st.stats.errors ++ [errFmt f msg] } }
    | OpenResult.opened n =>
      if n = 0 then st
      else
        { mergedPages := st.mergedPages + n
          toc := st.toc ++
            [⟨1, create_bookmark_title f ms.articleTitles, st.mergedPages + 1, st.mergedPages⟩]
          pageCounts := dset st.pageCounts f n
          fileToIndex :=
            match fileIndexKey f with
            | some k => dset st.fileToIndex f k
            | none => st.fileToIndex
          stats :=
            { filesProcessed := st.stats.filesProcessed + 1
              totalPages := st.stats.totalPages + n
              errors := st.stats.errors } }

def initLoopState : LoopState := ⟨0, [], [], [], ⟨0, 0, []⟩⟩

/-- The fragment loop of `merge_pdfs_stream` over the sorted file list. -/
def runLoop (ms : MergerState) (d : Dir) (files : List String) : LoopState :=
  files.foldl (processFile ms d) initLoopState

/-- The saved merged document: its page count and the outline stored by
`set_toc` (empty when bookmarks are disabled or no entry was produced). -/
structure SavedDoc where
  pages : Nat
  toc : List TocEntry
deriving Repr, DecidableEq

/-- Observable outcome of `merge_pdfs_stream`: the returned boolean, the
written output file (if any), and the statistics contribution of this
call (`self.stats` accumulates across calls; the model records the
per-call delta, starting from zeroes). -/
structure MergeResult where
  ok : Bool
  saved : Option SavedDoc
  stats : RunStats
deriving Repr, DecidableEq

/-- The TOC selection after the loop: when a section structure is loaded
(truthy), a non-empty hierarchical TOC replaces the flat one; a `None`
result or an empty list keeps the flat TOC. -/
def chosenToc (ms : MergerState) (files : List String) (st : LoopState) : List TocEntry :=
  match ms.sectionStructure with
  | none => st.toc
  | some _ =>
    match build_hierarchical_toc ms files st.pageCounts st.fileToIndex with
    | some l => if l.isEmpty then st.toc else l
    | none => st.toc

/-- `merge_pdfs_stream`, translated from the source.  An empty file list
returns `False` with no output.  After the loop, `set_toc` stores the
chosen TOC when bookmarks are enabled and the list is truthy.
`merged_pdf.save` raises `ValueError("cannot save with zero pages")` when
nothing was merged; the inner handler then appends
`f"PDF合并失败: {e}"` to the statistics and re-raises, and the outer
handler returns `False` — so no output file is written in that case.
Disk-level persistence failures are outside the model (saves succeed). -/
def merge_pdfs_stream (ms : MergerState) (d : Dir)
    (engineFilter : Option String := none) : MergeResult :=
  let files := get_pdf_files d engineFilter
  if files.isEmpty then ⟨false, none, ⟨0, 0, []⟩⟩
  else
    let st := runLoop ms d files
    let toc := chosenToc ms files st
    let finalToc := if ms.bookmarksEnabled && !toc.isEmpty then toc else []
    if st.mergedPages = 0 then
      ⟨false, none,
        { st.stats with
            errors := st.stats.errors ++ [("PDF合并失败: cannot save with zero pages")] }⟩
    else
      ⟨true, some ⟨st.mergedPages, finalToc⟩, st.stats⟩

/-- Specification-side view of one listed fragment: `some n` when opening
it succeeds with `n ≥ 1` pages (the fragment gets merged), `none` when it
is missing, corrupt, or empty. -/
def mergedCount (d : Dir) (f : String) : Option Nat :=
  match entryOf d f with
  | some e =>
    match e.content with
    | OpenResult.opened n => if n = 0 then none else some n
    | OpenResult.failed _ => none
  | none => none

/-- Total number of pages of the fragments that actually get merged. -/
def sumMerged (d : Dir) (files : List String) : Nat :=
  (files.filterMap (mergedCount d)).sum

/-- The error text a fragment contributes to the run statistics, if any. -/
def errOf (d : Dir) (f : String) : Option String :=
  match entryOf d f with
  | some e =>
    match e.content with
    | OpenResult.failed m => some (errFmt f m)
    | OpenResult.opened _ => none
  | none => none

/-- Specification-side description of the flat TOC: one level-1 entry per
merged fragment, in order, at the running start offset. -/
def flatToc (ms : MergerState) (d : Dir) : Nat → List String → List TocEntry
  | _, [] => []
  | s, f :: fs =>
    match mergedCount d f with
    | some n =>
      ⟨1, create_bookmark_title f ms.articleTitles, s + 1, s⟩ :: flatToc ms d (s + n) fs
    | none => flatToc ms d s fs

theorem dget_nil {β : Type} (k : String) : dget ([] : List (String × β)) k = none := rfl

theorem dget_cons {β : Type} (p : String × β) (ps : List (String × β)) (k : String) :
    dget (p :: ps) k = if p.1 = k then some p.2 else dget ps k := by
  unfold dget
  by_cases h : p.1 = k
  · rw [List.find?_cons_of_pos _ (by simpa using h), if_pos h]
    rfl
  · rw [List.find?_cons_of_neg _ (by simpa using h), if_neg h]

theorem dget_map_replace_self {β : Type} (m : List (String × β)) (k : String) (v : β)
    (h : m.any (fun p => p.1 = k) = true) :
    dget (m.map (fun p => if p.1 = k then (k, v) else p)) k = some v := by
  induction m with
  | nil => simp at h
  | cons p ps ih =>
    rw [List.map_cons, dget_cons]
    by_cases hp : p.1 = k
    · rw [if_pos hp]
      simp
    · rw [if_neg hp, if_neg hp]
      apply ih
      simp only [List.any_cons, Bool.or_eq_true, decide_eq_true_eq] at h
      rcases h with h | h
      · exact absurd h hp
      · exact h

theorem dget_map_replace_ne {β : Type} (m : List (String × β)) (k k2 : String) (v : β)
    (h : ¬(k = k2)) :
    dget (m.map (fun p => if p.1 = k then (k, v) else p)) k2 = dget m k2 := by
  induction m with
  | nil => simp
  | cons p ps ih =>
    rw [List.map_cons, dget_cons, dget_cons]
    by_cases hp : p.1 = k
    · rw [if_pos hp]
      have h1 : ¬((k, v).1 = k2) := by simpa using h
      have h2 : ¬(p.1 = k2) := by rw [hp]; exact h
      rw [if_neg h1, if_neg h2]
      exact ih
    · rw [if_neg hp]
      by_cases hp2 : p.1 = k2
      · rw [if_pos hp2, if_pos hp2]
      · rw [if_neg hp2, if_neg hp2]
        exact ih

theorem dget_append_single_self {β : Type} (m : List (String × β)) (k : String) (v : β)
    (h : m.any (fun p => p.1 = k) = false) :
    dget (m ++ [(k, v)]) k = some v := by
  induction m with
  | nil => simp [dget_cons]
  | cons p ps ih =>
    simp only [List.any_cons, Bool.or_eq_false_iff, decide_eq_false_iff_not] at h
    obtain ⟨hp, hps⟩ := h
    rw [List.cons_append, dget_cons, if_neg hp]
    exact ih (by simpa using hps)

theorem dget_append_single_ne {β : Type} (m : List (String × β)) (k k2 : String) (v : β)
    (h : ¬(k = k2)) :
    dget (m ++ [(k, v)]) k2 = dget m k2 := by
  induction m with
  | nil => simp [dget_cons, dget_nil, h]
  | cons p ps ih =>
    rw [List.cons_append, dget_cons, dget_cons]
    by_cases hp : p.1 = k2
    · rw [if_pos hp, if_pos hp]
    · rw [if_neg hp, if_neg hp]
      exact ih

theorem dget_dset_self {β : Type} (m : List (String × β)) (k : String) (v : β) :
    dget (dset m k v) k = some v := by
  unfold dset
  cases h : m.any (fun p => p.1 = k) with
  | true => rw [if_pos rfl]; exact dget_map_replace_self m k v h
  | false =>
    rw [if_neg (by simp [h])]
    exact dget_append_single_self m k v h

theorem dget_dset_ne {β : Type} (m : List (String × β)) (k k2 : String) (v : β)
    (h : ¬(k = k2)) : dget (dset m k v) k2 = dget m k2 := by
  unfold dset
  cases ha : m.any (fun p => p.1 = k) with
  | true => rw [if_pos rfl]; exact dget_map_replace_ne m k k2 v h
  | false =>
    rw [if_neg (by simp [ha])]
    exact dget_append_single_ne m k k2 v h

theorem mem_dset {β : Type} {m : List (String × β)} {k : String} {v : β} {p : String × β}
    (h : p ∈ dset m k v) : p ∈ m ∨ p = (k, v) := by
  unfold dset at h
  by_cases ha : m.any (fun q => q.1 = k) = true
  · rw [if_pos ha] at h
    rw [List.mem_map] at h
    obtain ⟨q, hq, hqe⟩ := h
    by_cases hqk : q.1 = k
    · rw [if_pos hqk] at hqe
      exact Or.inr hqe.symm
    · rw [if_neg hqk] at hqe
      exact Or.inl (hqe ▸ hq)
  · rw [if_neg ha] at h
    rw [List.mem_append] at h
    rcases h with h | h
    · exact Or.inl h
    · simp only [List.mem_singleton] at h
      exact Or.inr h

theorem dget_mem {β : Type} {m : List (String × β)} {x : String} {y : β}
    (h : dget m x = some y) : (x, y) ∈ m := by
  induction m with
  | nil => simp [dget_nil] at h
  | cons p ps ih =>
    rw [dget_cons] at h
    by_cases hp : p.1 = x
    · rw [if_pos hp] at h
      have hy : p.2 = y := by injection h
      have hpe : p = (x, y) := by
        cases p with
        | mk a b => simp_all
      rw [← hpe]
      exact List.mem_cons_self _ _
    · rw [if_neg hp] at h
      exact List.mem_cons_of_mem _ (ih h)

theorem processFile_mergedPages (ms : MergerState) (d : Dir) (st : LoopState) (f : String) :
    (processFile ms d st f).mergedPages = st.mergedPages + (mergedCount d f).getD 0 := by
  unfold processFile mergedCount
  cases entryOf d f with
  | none => simp
  | some e =>
    obtain ⟨nm, isf, mt, ct⟩ := e
    cases ct with
    | failed m => simp
    | opened n =>
      by_cases hn : n = 0
      · simp [hn]
      · simp [hn]

theorem processFile_toc (ms : MergerState) (d : Dir) (st : LoopState) (f : String) :
    (processFile ms d st f).toc = st.toc ++
      (match mergedCount d f with
        | some _ =>
          [⟨1, create_bookmark_title f ms.articleTitles, st.mergedPages + 1, st.mergedPages⟩]
        | none => []) := by
  unfold processFile mergedCount
  cases entryOf d f with
  | none => simp
  | some e =>
    obtain ⟨nm, isf, mt, ct⟩ := e
    cases ct with
    | failed m => simp
    | opened n =>
      by_cases hn : n = 0
      · simp [hn]
      · simp [hn]

theorem processFile_errors (ms : MergerState) (d : Dir) (st : LoopState) (f : String) :
    (processFile ms d st f).stats.errors = st.stats.errors ++ (errOf d f).toList := by
  unfold processFile errOf
  cases entryOf d f with
  | none => simp
  | some e =>
    obtain ⟨nm, isf, mt, ct⟩ := e
    cases ct with
    | failed m => simp
    | opened n =>
      by_cases hn : n = 0
      · simp [hn]
      · simp [hn]

theorem foldl_mergedPages (ms : MergerState) (d : Dir) (files : List String)
    (st : LoopState) :
    (files.foldl (processFile ms d) st).mergedPages = st.mergedPages + sumMerged d files := by
  induction files generalizing st with
  | nil => simp [sumMerged]
  | cons f fs ih =>
    rw [List.foldl_cons, ih, processFile_mergedPages]
    unfold sumMerged
    cases h : mergedCount d f with
    | none => simp [List.filterMap_cons, h]
    | some n =>
      simp only [List.filterMap_cons, h, List.sum_cons, Option.getD_some]
      omega

theorem foldl_toc (ms : MergerState) (d : Dir) (files : List String) (st : LoopState) :
    (files.foldl (processFile ms d) st).toc =
      st.toc ++ flatToc ms d st.mergedPages files := by
  induction files generalizing st with
  | nil => simp [flatToc]
  | cons f fs ih =>
    rw [List.foldl_cons, ih, processFile_toc, processFile_mergedPages]
    cases h : mergedCount d f with
    | none => simp [h, flatToc]
    | some n => simp [h, flatToc]

theorem foldl_errors (ms : MergerState) (d : Dir) (files : List String) (st : LoopState) :
    (files.foldl (processFile ms d) st).stats.errors =
      st.stats.errors ++ files.filterMap (errOf d) := by
  induction files generalizing st with
  | nil => simp
  | cons f fs ih =>
    rw [List.foldl_cons, ih, processFile_errors]
    cases h : errOf d f with
    | none => simp [List.filterMap_cons, h]
    | some m => simp [List.filterMap_cons, h]

theorem mergedCount_ne_zero {d : Dir} {f : String} {n : Nat}
    (h : mergedCount d f = some n) : n ≠ 0 := by
  unfold mergedCount at h
  cases he : entryOf d f with
  | none => rw [he] at h; simp at h
  | some e =>
    rw [he] at h
    obtain ⟨nm, isf, mt, ct⟩ := e
    cases ct with
    | failed m => simp at h
    | opened k =>
      simp only at h
      by_cases hk : k = 0
      · rw [if_pos hk] at h; simp at h
      · rw [if_neg hk] at h
        injection h with h2
        omega

theorem sumMerged_pos_iff (d : Dir) (files : List String) :
    0 < sumMerged d files ↔ ∃ f ∈ files, (mergedCount d f).isSome := by
  unfold sumMerged
  induction files with
  | nil => simp
  | cons f fs ih =>
    rw [List.filterMap_cons]
    cases h : mergedCount d f with
    | none =>
      unfold sumMerged at ih
      rw [ih]
      constructor
      · intro ⟨g, hg, hs⟩
        exact ⟨g, List.mem_cons_of_mem _ hg, hs⟩
      · intro ⟨g, hg, hs⟩
        rcases List.mem_cons.mp hg with hge | hge
        · rw [hge, h] at hs; simp at hs
        · exact ⟨g, hge, hs⟩
    | some n =>
      simp only [List.sum_cons]
      constructor
      · intro _
        exact ⟨f, List.mem_cons_self _ _, by simp [h]⟩
      · intro _
        have := mergedCount_ne_zero h
        omega

theorem merge_saved_eq {ms : MergerState} {d : Dir} {doc : SavedDoc}
    (h : (merge_pdfs_stream ms d none).saved = some doc) :
    (get_pdf_files d none).isEmpty = false ∧
    (runLoop ms d (get_pdf_files d none)).mergedPages ≠ 0 ∧
    doc = ⟨(runLoop ms d (get_pdf_files d none)).mergedPages,
      if ms.bookmarksEnabled &&
          !(chosenToc ms (get_pdf_files d none) (runLoop ms d (get_pdf_files d none))).isEmpty
      then chosenToc ms (get_pdf_files d none) (runLoop ms d (get_pdf_files d none))
      else []⟩ := by
  unfold merge_pdfs_stream at h
  simp only at h
  cases he : (get_pdf_files d none).isEmpty with
  | true => rw [he] at h; simp at h
  | false =>
    rw [he] at h
    simp only [Bool.false_eq_true, if_false] at h
    by_cases hz : (runLoop ms d (get_pdf_files d none)).mergedPages = 0
    · rw [if_pos hz] at h; simp at h
    · rw [if_neg hz] at h
      simp only [Option.some.injEq] at h
      exact ⟨rfl, hz, h.symm⟩

/-- **C3.** `merge_pdfs_stream` returns `False` and writes no file when
the directory has no eligible PDFs (in particular when it does not
exist); otherwise it returns `True` exactly when at least one fragment
was merged (readable with at least one page), so a run in which every
fragment fails or is skipped returns `False`; and an output document
exists exactly when the call returns `True`. -/
theorem c3_return_value (ms : MergerState) (d : Dir) :
    ((merge_pdfs_stream ms d none).ok = true ↔
      ∃ f ∈ get_pdf_files d none, (mergedCount d f).isSome) ∧
    ((merge_pdfs_stream ms d none).saved.isSome ↔ (merge_pdfs_stream ms d none).ok = true) ∧
    (get_pdf_files d none = [] →
      merge_pdfs_stream ms d none = ⟨false, none, ⟨0, 0, []⟩⟩) ∧
    (d.present = false → merge_pdfs_stream ms d none = ⟨false, none, ⟨0, 0, []⟩⟩) := by
  have hmp : (runLoop ms d (get_pdf_files d none)).mergedPages =
      sumMerged d (get_pdf_files d none) := by
    unfold runLoop
    rw [foldl_mergedPages]
    simp [initLoopState]
  have hempty : get_pdf_files d none = [] →
      merge_pdfs_stream ms d none = ⟨false, none, ⟨0, 0, []⟩⟩ := by
    intro he
    unfold merge_pdfs_stream
    simp [he]
  refine ⟨?_, ?_, hempty, ?_⟩
  · unfold merge_pdfs_stream
    simp only
    cases he : (get_pdf_files d none).isEmpty with
    | true =>
      simp only [if_true]
      rw [List.isEmpty_iff] at he
      rw [he]
      simp
    | false =>
      simp only [Bool.false_eq_true, if_false]
      by_cases hz : (runLoop ms d (get_pdf_files d none)).mergedPages = 0
      · rw [if_pos hz]
        rw [hmp] at hz
        simp only []
        constructor
        · intro hcon; exact absurd hcon (by simp)
        · intro hex
          have := (sumMerged_pos_iff d (get_pdf_files d none)).mpr hex
          omega
      · rw [if_neg hz]
        rw [hmp] at hz
        simp only []
        constructor
        · intro _
          exact (sumMerged_pos_iff d (get_pdf_files d none)).mp (by omega)
        · intro _; trivial
  · unfold merge_pdfs_stream
    simp only
    cases he : (get_pdf_files d none).isEmpty with
    | true => simp
    | false =>
      simp only [Bool.false_eq_true, if_false]
      by_cases hz : (runLoop ms d (get_pdf_files d none)).mergedPages = 0
      · rw [if_pos hz]; simp
      · rw [if_neg hz]; simp
  · intro hp
    apply hempty
    unfold get_pdf_files
    simp [hp]

/-- A `PDFMerger` state with no metadata loaded and bookmarks enabled
(the configuration default). -/
def msPlain : MergerState := ⟨[], none, true⟩

/-- A directory that does not exist (`os.path.exists` is false). -/
def absentDir : Dir := ⟨false, []⟩

theorem c3_return_value_witness :
    merge_pdfs_stream msPlain absentDir none = ⟨false, none, ⟨0, 0, []⟩⟩ :=
  (c3_return_value msPlain absentDir).2.2.2 (by decide)

theorem flatToc_length (ms : MergerState) (d : Dir) (s : Nat) (files : List String) :
    (flatToc ms d s files).length =
      (files.filter (fun f => (mergedCount d f).isSome)).length := by
  induction files generalizing s with
  | nil => simp [flatToc]
  | cons f fs ih =>
    simp only [flatToc]
    cases h : mergedCount d f with
    | none => simp [List.filter_cons, h, ih]
    | some n => simp [List.filter_cons, h, ih]

theorem flatToc_levels (ms : MergerState) (d : Dir) (s : Nat) (files : List String) :
    ∀ e ∈ flatToc ms d s files, e.level = 1 := by
  induction files generalizing s with
  | nil => simp [flatToc]
  | cons f fs ih =>
    simp only [flatToc]
    cases h : mergedCount d f with
    | none => exact ih s
    | some n =>
      intro e he
      rcases List.mem_cons.mp he with he | he
      · rw [he]
      · exact ih (s + n) e he

theorem runLoop_toc (ms : MergerState) (d : Dir) (files : List String) :
    (runLoop ms d files).toc = flatToc ms d 0 files := by
  unfold runLoop
  rw [foldl_toc]
  simp [initLoopState]

/-- **C2.** The page count of every saved merged document is the sum of
the page counts of exactly the fragments actually merged (failed and
zero-page fragments excluded); and for a directory whose eligible
fragments are all readable with at least one page, merged with no
SectionStructure loaded and bookmarks enabled, the saved document has
exactly the sum of the fragments' page counts as its page count and its
TOC is the flat list with exactly one level-1 entry per fragment, in
fragment sort order. -/
theorem c2_page_sum_and_flat_toc :
    (∀ (ms : MergerState) (d : Dir) (doc : SavedDoc),
      (merge_pdfs_stream ms d none).saved = some doc →
      doc.pages = sumMerged d (get_pdf_files d none)) ∧
    (∀ (ms : MergerState) (d : Dir) (doc : SavedDoc),
      ms.sectionStructure = none →
      ms.bookmarksEnabled = true →
      (∀ f ∈ get_pdf_files d none, (mergedCount d f).isSome) →
      (merge_pdfs_stream ms d none).saved = some doc →
      doc.pages = sumMerged d (get_pdf_files d none) ∧
      doc.toc = flatToc ms d 0 (get_pdf_files d none) ∧
      doc.toc.length = (get_pdf_files d none).length ∧
      ∀ e ∈ doc.toc, e.level = 1) := by
  have hpages : ∀ (ms : MergerState) (d : Dir) (doc : SavedDoc),
      (merge_pdfs_stream ms d none).saved = some doc →
      doc.pages = sumMerged d (get_pdf_files d none) := by
    intro ms d doc h
    obtain ⟨he, hz, hdoc⟩ := merge_saved_eq h
    rw [hdoc]
    unfold runLoop
    rw [foldl_mergedPages]
    simp [initLoopState]
  refine ⟨hpages, ?_⟩
  intro ms d doc hsec hbm hall h
  obtain ⟨he, hz, hdoc⟩ := merge_saved_eq h
  have hct : chosenToc ms (get_pdf_files d none) (runLoop ms d (get_pdf_files d none)) =
      flatToc ms d 0 (get_pdf_files d none) := by
    unfold chosenToc
    rw [hsec]
    exact runLoop_toc ms d _
  have hfilter : (get_pdf_files d none).filter (fun f => (mergedCount d f).isSome) =
      get_pdf_files d none := by
    apply List.filter_eq_self.mpr
    intro f hf
    exact hall f hf
  have hlen : (flatToc ms d 0 (get_pdf_files d none)).length =
      (get_pdf_files d none).length := by
    rw [flatToc_length, hfilter]
  have htocne : (flatToc ms d 0 (get_pdf_files d none)).isEmpty = false := by
    rw [Bool.eq_false_iff]
    intro hemp
    rw [List.isEmpty_iff] at hemp
    have hl0 := congrArg List.length hemp
    rw [hlen] at hl0
    simp only [List.length_nil] at hl0
    rw [List.length_eq_zero] at hl0
    rw [hl0] at he
    simp at he
  have hfull : doc.toc = flatToc ms d 0 (get_pdf_files d none) := by
    rw [hdoc]
    simp only [hct, hbm, htocne]
    simp
  refine ⟨hpages ms d doc h, hfull, ?_, ?_⟩
  · rw [hfull, hlen]
  · rw [hfull]
    exact flatToc_levels ms d 0 _

/-- A concrete two-fragment directory for the C2 witness. -/
def c2Dir : Dir :=
  ⟨true,
    [⟨"1-a.pdf", true, none, OpenResult.opened 2⟩,
     ⟨"2-b.pdf", true, none, OpenResult.opened 3⟩]⟩

theorem c2_page_sum_and_flat_toc_witness :
    ∀ doc, (merge_pdfs_stream msPlain c2Dir none).saved = some doc →
      doc.pages = sumMerged c2Dir (get_pdf_files c2Dir none) ∧
      doc.toc = flatToc msPlain c2Dir 0 (get_pdf_files c2Dir none) ∧
      doc.toc.length = (get_pdf_files c2Dir none).length ∧
      ∀ e ∈ doc.toc, e.level = 1 := by
  intro doc h
  exact c2_page_sum_and_flat_toc.2 msPlain c2Dir doc (by decide) (by decide)
    (by decide) h

theorem errOf_mergedCount {d : Dir} {f em : String} (h : errOf d f = some em) :
    mergedCount d f = none := by
  unfold errOf at h
  unfold mergedCount
  cases he : entryOf d f with
  | none => rw [he] at h
  | some e =>
    rw [he] at h
    obtain ⟨nm, isf, mt, ct⟩ := e
    cases ct with
    | failed m => simp
    | opened n => simp at h

theorem sumMerged_append (d : Dir) (l1 l2 : List String) :
    sumMerged d (l1 ++ l2) = sumMerged d l1 + sumMerged d l2 := by
  unfold sumMerged
  rw [List.filterMap_append, List.sum_append]

theorem sumMerged_cons_none (d : Dir) (f : String) (l : List String)
    (h : mergedCount d f = none) :
    sumMerged d (f :: l) = sumMerged d l := by
  unfold sumMerged
  rw [List.filterMap_cons, h]

theorem flatToc_append_skip (ms : MergerState) (d : Dir) (s : Nat)
    (pre post : List String) (f : String) (hf : mergedCount d f = none) :
    flatToc ms d s (pre ++ f :: post) = flatToc ms d s (pre ++ post) := by
  induction pre generalizing s with
  | nil => simp [flatToc, hf]
  | cons g gs ih =>
    simp only [List.cons_append, flatToc]
    cases h : mergedCount d g with
    | none => simp [ih]
    | some n => simp [ih]

/-- Directory for the C7 partial-failure scenario: two valid fragments
(2 and 3 pages) around one corrupt fragment raising `e`. -/
def c7Dir (e : String) : Dir :=
  ⟨true,
    [⟨"1-a.pdf", true, none, OpenResult.opened 2⟩,
     ⟨"2-b.pdf", true, none, OpenResult.failed e⟩,
     ⟨"3-c.pdf", true, none, OpenResult.opened 3⟩]⟩

/-- **C7.** A fragment whose open/insert raises contributes its formatted
error text to the run's error statistics, no pages and no bookmark entry,
and the loop continues with the remaining fragments (the run over
`pre ++ f :: post` has the same pages and TOC as over `pre ++ post`);
concretely, a directory with two valid fragments around one corrupt one
merges exactly the two valid fragments' pages, records the corrupt file's
error and still returns overall success. -/
theorem c7_error_recovery :
    (∀ (ms : MergerState) (d : Dir) (pre post : List String) (f em : String),
      errOf d f = some em →
      (runLoop ms d (pre ++ f :: post)).mergedPages =
        (runLoop ms d (pre ++ post)).mergedPages ∧
      (runLoop ms d (pre ++ f :: post)).toc = (runLoop ms d (pre ++ post)).toc ∧
      (runLoop ms d (pre ++ f :: post)).stats.errors =
        pre.filterMap (errOf d) ++ [em] ++ post.filterMap (errOf d)) ∧
    (∀ e : String,
      merge_pdfs_stream msPlain (c7Dir e) none =
        ⟨true, some ⟨5, [⟨1, "A", 1, 0⟩, ⟨1, "C", 3, 2⟩]⟩,
         ⟨2, 5, [errFmt ("2-b.pdf") e]⟩⟩) := by
  constructor
  · intro ms d pre post f em hf
    have hmc := errOf_mergedCount hf
    refine ⟨?_, ?_, ?_⟩
    · unfold runLoop
      rw [foldl_mergedPages, foldl_mergedPages, sumMerged_append, sumMerged_append,
        sumMerged_cons_none d f post hmc]
    · unfold runLoop
      rw [foldl_toc, foldl_toc]
      rw [flatToc_append_skip ms d initLoopState.mergedPages pre post f hmc]
    · unfold runLoop
      rw [foldl_errors]
      rw [List.filterMap_append, List.filterMap_cons, hf]
      simp [initLoopState]
  · intro e
    rfl

theorem c7_error_recovery_witness :
    (runLoop msPlain (c7Dir ("boom")) (["1-a.pdf"] ++ ("2-b.pdf") :: ["3-c.pdf"])).mergedPages =
      (runLoop msPlain (c7Dir ("boom")) (["1-a.pdf"] ++ ["3-c.pdf"])).mergedPages ∧
    (runLoop msPlain (c7Dir ("boom")) (["1-a.pdf"] ++ ("2-b.pdf") :: ["3-c.pdf"])).toc =
      (runLoop msPlain (c7Dir ("boom")) (["1-a.pdf"] ++ ["3-c.pdf"])).toc ∧
    (runLoop msPlain (c7Dir ("boom")) (["1-a.pdf"] ++ ("2-b.pdf") :: ["3-c.pdf"])).stats.errors =
      (["1-a.pdf"]).filterMap (errOf (c7Dir ("boom"))) ++ [errFmt ("2-b.pdf") ("boom")] ++
        (["3-c.pdf"]).filterMap (errOf (c7Dir ("boom"))) :=
  c7_error_recovery.1 msPlain (c7Dir ("boom")) ["1-a.pdf"] ["3-c.pdf"] ("2-b.pdf")
    (errFmt ("2-b.pdf") ("boom")) (by decide)

theorem processFile_pageCounts (ms : MergerState) (d : Dir) (st : LoopState) (f : String) :
    (processFile ms d st f).pageCounts =
      match mergedCount d f with
      | some n => dset st.pageCounts f n
      | none => st.pageCounts := by
  unfold processFile mergedCount
  cases entryOf d f with
  | none => simp
  | some e =>
    obtain ⟨nm, isf, mt, ct⟩ := e
    cases ct with
    | failed m => simp
    | opened n =>
      by_cases hn : n = 0
      · simp [hn]
      · simp [hn]

theorem processFile_fileToIndex (ms : MergerState) (d : Dir) (st : LoopState) (f : String) :
    (processFile ms d st f).fileToIndex =
      match mergedCount d f, fileIndexKey f with
      | some _, some k => dset st.fileToIndex f k
      | some _, none => st.fileToIndex
      | none, _ => st.fileToIndex := by
  unfold processFile mergedCount
  cases entryOf d f with
  | none => simp
  | some e =>
    obtain ⟨nm, isf, mt, ct⟩ := e
    cases ct with
    | failed m => simp
    | opened n =>
      by_cases hn : n = 0
      · simp [hn]
      · cases hk : fileIndexKey f with
        | none => simp [hn, hk]
        | some k => simp [hn, hk]

theorem foldl_pageCounts_not_mem (ms : MergerState) (d : Dir) (files : List String)
    (st : LoopState) (f : String) (hf : ¬(f ∈ files)) :
    dget ((files.foldl (processFile ms d) st).pageCounts) f = dget st.pageCounts f := by
  induction files generalizing st with
  | nil => rfl
  | cons g gs ih =>
    rw [List.foldl_cons]
    have hnotg : ¬(f ∈ gs) := fun h => hf (List.mem_cons_of_mem _ h)
    rw [ih _ hnotg, processFile_pageCounts]
    cases hm : mergedCount d g with
    | none => rfl
    | some n =>
      have hgf : ¬(g = f) := by
        intro h
        exact hf (h ▸ List.mem_cons_self _ _)
      exact dget_dset_ne _ _ _ _ hgf

theorem foldl_pageCounts_some (ms : MergerState) (d : Dir) (files : List String)
    (st : LoopState) (f : String) (n : Nat)
    (hm : mergedCount d f = some n) (hf : f ∈ files) :
    dget ((files.foldl (processFile ms d) st).pageCounts) f = some n := by
  induction files generalizing st with
  | nil => simp at hf
  | cons g gs ih =>
    rw [List.foldl_cons]
    by_cases hmem : f ∈ gs
    · exact ih _ hmem
    · have hfg : f = g := by
        rcases List.mem_cons.mp hf with h | h
        · exact h
        · exact absurd h hmem
      subst hfg
      rw [foldl_pageCounts_not_mem ms d gs _ f hmem, processFile_pageCounts, hm]
      exact dget_dset_self _ _ _

theorem foldl_pageCounts_none (ms : MergerState) (d : Dir) (files : List String)
    (st : LoopState) (f : String) (hm : mergedCount d f = none) :
    dget ((files.foldl (processFile ms d) st).pageCounts) f = dget st.pageCounts f := by
  induction files generalizing st with
  | nil => rfl
  | cons g gs ih =>
    rw [List.foldl_cons, ih, processFile_pageCounts]
    cases hg : mergedCount d g with
    | none => rfl
    | some n =>
      have hgf : ¬(g = f) := by
        intro h
        rw [h, hm] at hg
        exact Option.noConfusion hg
      exact dget_dset_ne _ _ _ _ hgf

theorem foldl_fileToIndex_mem (ms : MergerState) (d : Dir) (files : List String)
    (st : LoopState) (q : String × String)
    (h : q ∈ (files.foldl (processFile ms d) st).fileToIndex) :
    q ∈ st.fileToIndex ∨
      (q.1 ∈ files ∧ fileIndexKey q.1 = some q.2 ∧ (mergedCount d q.1).isSome) := by
  induction files generalizing st with
  | nil => exact Or.inl h
  | cons g gs ih =>
    rw [List.foldl_cons] at h
    rcases ih _ h with hin | ⟨hg, hk, hs⟩
    · rw [processFile_fileToIndex] at hin
      cases hm : mergedCount d g with
      | none => rw [hm] at hin; exact Or.inl hin
      | some n =>
        cases hk2 : fileIndexKey g with
        | none => rw [hm, hk2] at hin; exact Or.inl hin
        | some k =>
          rw [hm, hk2] at hin
          rcases mem_dset hin with hin2 | hq
          · exact Or.inl hin2
          · right
            rw [hq]
            exact ⟨List.mem_cons_self _ _, by simpa using hk2, by simp [hm]⟩
    · exact Or.inr ⟨List.mem_cons_of_mem _ hg, hk, hs⟩

theorem indexToFile_fold_mem (f2i : List (String × String)) (l : List String)
    (m0 : List (String × String)) (q : String × String)
    (h : q ∈ l.foldl (fun m f =>
        match dget f2i f with
        | some fi => if fi = "" then m else dset m fi f
        | none => m) m0) :
    q ∈ m0 ∨ (q.2 ∈ l ∧ dget f2i q.2 = some q.1 ∧ ¬(q.1 = "")) := by
  induction l generalizing m0 with
  | nil => exact Or.inl h
  | cons g gs ih =>
    rw [List.foldl_cons] at h
    rcases ih _ h with hin | ⟨hg, hk, hne⟩
    · cases hd : dget f2i g with
      | none => rw [hd] at hin; exact Or.inl hin
      | some fi =>
        rw [hd] at hin
        have hin2 : q ∈ (if fi = "" then m0 else dset m0 fi g) := hin
        by_cases hfi : fi = ""
        · rw [if_pos hfi] at hin2
          exact Or.inl hin2
        · rw [if_neg hfi] at hin2
          rcases mem_dset hin2 with hin3 | hq
          · exact Or.inl hin3
          · right
            rw [hq]
            exact ⟨List.mem_cons_self _ _, by simpa using hd, hfi⟩
    · exact Or.inr ⟨List.mem_cons_of_mem _ hg, hk, hne⟩

/-- Sum of the `page_counts.get(f, 0)` values over a file list — the
final value of `current_page` in `_build_hierarchical_toc`. -/
def offsetsSum (pc : List (String × Nat)) (l : List String) : Nat :=
  (l.map (fun g => (dget pc g).getD 0)).sum

theorem fpm_fold_counter (pc : List (String × Nat)) (l : List String)
    (m : List (String × Nat)) (cur : Nat) :
    (l.foldl (fun acc f => (dset acc.1 f acc.2, acc.2 + (dget pc f).getD 0)) (m, cur)).2 =
      cur + offsetsSum pc l := by
  induction l generalizing m cur with
  | nil => simp [offsetsSum]
  | cons g gs ih =>
    rw [List.foldl_cons, ih]
    simp only [offsetsSum, List.map_cons, List.sum_cons]
    omega

theorem fpm_fold_bound (pc : List (String × Nat)) (l : List String) :
    ∀ (m : List (String × Nat)) (cur : Nat),
      (∀ g v, dget m g = some v → v + (dget pc g).getD 0 ≤ cur) →
      ∀ g v,
        dget ((l.foldl (fun acc f => (dset acc.1 f acc.2, acc.2 + (dget pc f).getD 0))
          (m, cur)).1) g = some v →
        v + (dget pc g).getD 0 ≤ cur + offsetsSum pc l := by
  induction l with
  | nil =>
    intro m cur hinv g v hg
    have := hinv g v hg
    simp only [offsetsSum, List.map_nil, List.sum_nil]
    omega
  | cons f fs ih =>
    intro m cur hinv g v hg
    rw [List.foldl_cons] at hg
    have hstep : ∀ g2 v2, dget (dset m f cur) g2 = some v2 →
        v2 + (dget pc g2).getD 0 ≤ cur + (dget pc f).getD 0 := by
      intro g2 v2 h2
      by_cases hf : f = g2
      · subst hf
        rw [dget_dset_self] at h2
        injection h2 with h2
        omega
      · rw [dget_dset_ne m f g2 cur hf] at h2
        have := hinv g2 v2 h2
        omega
    have := ih (dset m f cur) (cur + (dget pc f).getD 0) hstep g v hg
    simp only [offsetsSum, List.map_cons, List.sum_cons] at this ⊢
    omega

theorem filePageMap_bound (pc : List (String × Nat)) (files : List String)
    (f : String) (p : Nat) (h : dget (filePageMap files pc) f = some p) :
    p + (dget pc f).getD 0 ≤ offsetsSum pc files := by
  unfold filePageMap at h
  have := fpm_fold_bound pc files [] 0
    (by intro g v hg; rw [dget_nil] at hg; exact Option.noConfusion hg) f p h
  simpa using this

theorem sum_filterMap_getD (g : String → Option Nat) (l : List String) :
    (l.filterMap g).sum = (l.map (fun x => (g x).getD 0)).sum := by
  induction l with
  | nil => simp
  | cons x xs ih =>
    rw [List.filterMap_cons]
    cases h : g x with
    | none => simp [h, ih]
    | some n => simp [h, ih]

theorem offsetsSum_runLoop (ms : MergerState) (d : Dir) (files : List String) :
    offsetsSum ((runLoop ms d files).pageCounts) files = sumMerged d files := by
  unfold offsetsSum sumMerged
  rw [sum_filterMap_getD]
  congr 1
  apply List.map_congr_left
  intro f hf
  cases hm : mergedCount d f with
  | none =>
    unfold runLoop
    rw [foldl_pageCounts_none ms d files initLoopState f hm]
    rfl
  | some n =>
    unfold runLoop
    rw [foldl_pageCounts_some ms d files initLoopState f n hm hf]

theorem flatToc_bounds (ms : MergerState) (d : Dir) (s : Nat) (files : List String) :
    ∀ e ∈ flatToc ms d s files,
      s ≤ e.linkPage ∧ e.page1 = e.linkPage + 1 ∧ e.page1 ≤ s + sumMerged d files := by
  induction files generalizing s with
  | nil => simp [flatToc]
  | cons f fs ih =>
    simp only [flatToc]
    cases h : mergedCount d f with
    | none =>
      intro e he
      have := ih s e he
      rw [sumMerged_cons_none d f fs h]
      exact this
    | some n =>
      intro e he
      have hsum : sumMerged d (f :: fs) = n + sumMerged d fs := by
        unfold sumMerged
        rw [List.filterMap_cons, h]
        simp
      have hn := mergedCount_ne_zero h
      rcases List.mem_cons.mp he with he | he
      · rw [he]
        refine ⟨le_refl _, rfl, ?_⟩
        simp only
        omega
      · have := ih (s + n) e he
        refine ⟨by omega, this.2.1, ?_⟩
        have h3 := this.2.2
        omega

theorem resolvePage_spec {articleTitles i2f : List (String × String)}
    {fpm : List (String × Nat)} {p : PageRef} {t : String} {pg : Nat}
    (h : resolvePage articleTitles i2f fpm p = some (t, pg)) :
    ∃ idx fn, p.index = some idx ∧ ¬(idx = "") ∧ dget i2f idx = some fn ∧
      dget fpm fn = some pg := by
  unfold resolvePage at h
  cases hpi : p.index with
  | none => rw [hpi] at h; exact absurd h (by simp)
  | some idx =>
    rw [hpi] at h
    have h2 : (if idx = "" then none
        else match dget i2f idx with
          | none => none
          | some fn =>
            match dget fpm fn with
            | none => none
            | some pg => some ((dget articleTitles idx).getD (("Page ") ++ idx), pg))
        = some (t, pg) := h
    by_cases hidx : idx = ""
    · rw [if_pos hidx] at h2
      exact absurd h2 (by simp)
    · rw [if_neg hidx] at h2
      cases hf : dget i2f idx with
      | none => rw [hf] at h2; exact absurd h2 (by simp)
      | some fn =>
        rw [hf] at h2
        have h3 : (match dget fpm fn with
            | none => none
            | some pg => some ((dget articleTitles idx).getD (("Page ") ++ idx), pg))
            = some (t, pg) := h2
        cases hp : dget fpm fn with
        | none => rw [hp] at h3; exact absurd h3 (by simp)
        | some pg2 =>
          rw [hp] at h3
          have hpg : pg2 = pg := by
            have h4 := congrArg (fun o => (Option.getD o (("x"), 0)).2) h3
            simpa using h4
          exact ⟨idx, fn, rfl, hidx, hf, by rw [hp, hpg]⟩

theorem sectionEntries_mem {articleTitles i2f : List (String × String)}
    {fpm : List (String × Nat)} {sec : TocSection} {e : TocEntry}
    (h : e ∈ sectionEntries articleTitles i2f fpm sec) :
    ∃ v ∈ sec.pages.filterMap (resolvePage articleTitles i2f fpm),
      e.page1 = v.2 + 1 ∧ e.linkPage = v.2 := by
  unfold sectionEntries at h
  cases hres : sec.pages.filterMap (resolvePage articleTitles i2f fpm) with
  | nil => rw [hres] at h; simp at h
  | cons v vs =>
    rw [hres] at h
    rcases List.mem_cons.mp h with he | he
    · refine ⟨v, List.mem_cons_self _ _, ?_, ?_⟩
      · rw [he]
      · rw [he]
    · rw [List.mem_map] at he
      obtain ⟨w, hw, hwe⟩ := he
      refine ⟨w, hw, ?_, ?_⟩
      · rw [← hwe]
      · rw [← hwe]

theorem foldl_append_mem {α β : Type} (g : β → List α) (l : List β) (acc : List α)
    (x : α) (h : x ∈ l.foldl (fun acc b => acc ++ g b) acc) :
    x ∈ acc ∨ ∃ b ∈ l, x ∈ g b := by
  induction l generalizing acc with
  | nil => exact Or.inl h
  | cons b bs ih =>
    rw [List.foldl_cons] at h
    rcases ih _ h with hin | ⟨b2, hb2, hx⟩
    · rw [List.mem_append] at hin
      rcases hin with hin | hin
      · exact Or.inl hin
      · exact Or.inr ⟨b, List.mem_cons_self _ _, hin⟩
    · exact Or.inr ⟨b2, List.mem_cons_of_mem _ hb2, hx⟩

theorem build_hier_some {ms : MergerState} {files : List String}
    {pc : List (String × Nat)} {f2i : List (String × String)} {l : List TocEntry}
    (h : build_hierarchical_toc ms files pc f2i = some l) :
    ∃ ss secs, ms.sectionStructure = some ss ∧ ss.sections = some secs ∧
      l = secs.foldl (fun toc sec =>
        toc ++ sectionEntries ms.articleTitles (indexToFile files f2i)
          (filePageMap files pc) sec) [] := by
  unfold build_hierarchical_toc at h
  cases hss : ms.sectionStructure with
  | none => rw [hss] at h; exact absurd h (by simp)
  | some ss =>
    rw [hss] at h
    have h2 : (match ss.sections with
        | none => none
        | some sections =>
          some (sections.foldl (fun toc sec =>
            toc ++ sectionEntries ms.articleTitles (indexToFile files f2i)
              (filePageMap files pc) sec) []))
        = some l := h
    cases hsec : ss.sections with
    | none => rw [hsec] at h2; exact absurd h2 (by simp)
    | some secs =>
      rw [hsec] at h2
      simp only [Option.some.injEq] at h2
      exact ⟨ss, secs, rfl, hsec, h2.symm⟩

theorem chosenToc_cases (ms : MergerState) (files : List String) (st : LoopState) :
    chosenToc ms files st = st.toc ∨
      (∃ l, build_hierarchical_toc ms files st.pageCounts st.fileToIndex = some l ∧
        chosenToc ms files st = l) := by
  unfold chosenToc
  cases hss : ms.sectionStructure with
  | none => exact Or.inl rfl
  | some ss =>
    cases hb : build_hierarchical_toc ms files st.pageCounts st.fileToIndex with
    | none => exact Or.inl rfl
    | some l =>
      cases hl : l.isEmpty with
      | true =>
        left
        show (if l.isEmpty = true then st.toc else l) = st.toc
        rw [hl]
        simp
      | false =>
        right
        refine ⟨l, rfl, ?_⟩
        show (if l.isEmpty = true then st.toc else l) = l
        rw [hl]
        simp

/-- **C8.** Every bookmark entry stored on a saved merged document has a
1-based target page between 1 and the document's page count (so it points
at an existing page), its 0-based link page is strictly below the page
count, and the two are offset by exactly one — in flat and hierarchical
mode alike. -/
theorem c8_bookmark_targets (ms : MergerState) (d : Dir) (doc : SavedDoc)
    (h : (merge_pdfs_stream ms d none).saved = some doc) :
    ∀ e ∈ doc.toc,
      1 ≤ e.page1 ∧ e.page1 ≤ doc.pages ∧ e.linkPage < doc.pages ∧
        e.page1 = e.linkPage + 1 := by
  obtain ⟨hne, hz, hdoc⟩ := merge_saved_eq h
  have hpages : doc.pages = sumMerged d (get_pdf_files d none) := by
    rw [hdoc]
    unfold runLoop
    rw [foldl_mergedPages]
    simp [initLoopState]
  intro e he
  rw [hdoc] at he
  simp only at he
  by_cases hbm : (ms.bookmarksEnabled &&
      !(chosenToc ms (get_pdf_files d none) (runLoop ms d (get_pdf_files d none))).isEmpty)
      = true
  swap
  · rw [if_neg hbm] at he
    simp at he
  rw [if_pos hbm] at he
  rcases chosenToc_cases ms (get_pdf_files d none) (runLoop ms d (get_pdf_files d none))
    with hflat | ⟨l, hb, hcl⟩
  · -- flat TOC
    rw [hflat, runLoop_toc] at he
    have hbd := flatToc_bounds ms d 0 (get_pdf_files d none) e he
    rw [hpages]
    refine ⟨by omega, by omega, by omega, hbd.2.1⟩
  · -- hierarchical TOC
    rw [hcl] at he
    obtain ⟨ss, secs, hss, hsec, hl⟩ := build_hier_some hb
    rw [hl] at he
    rcases foldl_append_mem _ secs [] e he with habs | ⟨sec, hsecmem, hesec⟩
    · simp at habs
    obtain ⟨v, hv, hp1, hlp⟩ := sectionEntries_mem hesec
    rw [List.mem_filterMap] at hv
    obtain ⟨pref, hpref, hres⟩ := hv
    have hres2 : resolvePage (ms.articleTitles)
        (indexToFile (get_pdf_files d none)
          ((runLoop ms d (get_pdf_files d none)).fileToIndex))
        (filePageMap (get_pdf_files d none)
          ((runLoop ms d (get_pdf_files d none)).pageCounts)) pref = some (v.1, v.2) := by
      rw [hres]
    obtain ⟨idx, fn, hpidx, hidxne, hi2f, hfpm⟩ := resolvePage_spec hres2
    have hq := indexToFile_fold_mem
      ((runLoop ms d (get_pdf_files d none)).fileToIndex) (get_pdf_files d none) []
      (idx, fn) (dget_mem hi2f)
    rcases hq with habs | ⟨hfnfiles, hf2i, hidne⟩
    · simp at habs
    have hq2 := foldl_fileToIndex_mem ms d (get_pdf_files d none) initLoopState
      (fn, idx) (dget_mem hf2i)
    rcases hq2 with habs | ⟨hfnmem, hkey, hsome⟩
    · simp [initLoopState] at habs
    rw [Option.isSome_iff_exists] at hsome
    obtain ⟨n, hn⟩ := hsome
    have hpcn : dget ((runLoop ms d (get_pdf_files d none)).pageCounts) fn = some n := by
      unfold runLoop
      exact foldl_pageCounts_some ms d (get_pdf_files d none) initLoopState fn n hn hfnmem
    have hbound := filePageMap_bound
      ((runLoop ms d (get_pdf_files d none)).pageCounts) (get_pdf_files d none) fn v.2 hfpm
    rw [hpcn] at hbound
    rw [offsetsSum_runLoop] at hbound
    have hn0 := mergedCount_ne_zero hn
    simp only [Option.getD_some] at hbound
    rw [hpages]
    refine ⟨by omega, by omega, by omega, by omega⟩

/-- Merger state with a one-section structure for the C8 witness. -/
def c8Ms : MergerState :=
  ⟨[], some ⟨some [⟨some ("S1"), [⟨some ("1")⟩, ⟨some ("2")⟩]⟩]⟩, true⟩

theorem c8_bookmark_targets_witness :
    1 ≤ (TocEntry.mk 2 ("Page 2") 3 2).page1 ∧
    (TocEntry.mk 2 ("Page 2") 3 2).page1 ≤ 5 ∧
    (TocEntry.mk 2 ("Page 2") 3 2).linkPage < 5 ∧
    (TocEntry.mk 2 ("Page 2") 3 2).page1 = (TocEntry.mk 2 ("Page 2") 3 2).linkPage + 1 := by
  have h := c8_bookmark_targets c8Ms c2Dir
    ⟨5, [TocEntry.mk 1 ("S1") 1 0, TocEntry.mk 2 ("Page 1") 1 0,
        TocEntry.mk 2 ("Page 2") 3 2]⟩ (by decide)
  exact h (TocEntry.mk 2 ("Page 2") 3 2) (by decide)

theorem fileIndexKey_some {f k : String} (h : fileIndexKey f = some k) :
    pyIsDigit (mergeIndexPfx f) = true ∧
      k = toString (digitsVal (mergeIndexPfx f).toList) := by
  unfold fileIndexKey at h
  by_cases hd : pyIsDigit (mergeIndexPfx f) = true
  · rw [if_pos hd] at h
    injection h with h
    exact ⟨hd, h.symm⟩
  · rw [if_neg hd] at h
    exact absurd h (by simp)

/-- **C10.** The filename-to-index map built during a merge run contains
only fragments whose suffix-stripped prefix before the first `'-'` is
entirely digits, stored with leading zeros stripped (`str(int(prefix))`),
and each such fragment was actually merged; consequently a
SectionStructure page reference resolved through the reverse index can
only ever name such a numeric-prefixed merged fragment — hash-named or
otherwise-named fragments never appear there, even when a section lists
their key. -/
theorem c10_index_map_numeric (ms : MergerState) (d : Dir) :
    (∀ q ∈ (runLoop ms d (get_pdf_files d none)).fileToIndex,
      pyIsDigit (mergeIndexPfx q.1) = true ∧
      q.2 = toString (digitsVal (mergeIndexPfx q.1).toList) ∧
      (mergedCount d q.1).isSome) ∧
    (∀ idx fn,
      dget (indexToFile (get_pdf_files d none)
        ((runLoop ms d (get_pdf_files d none)).fileToIndex)) idx = some fn →
      pyIsDigit (mergeIndexPfx fn) = true ∧
      idx = toString (digitsVal (mergeIndexPfx fn).toList) ∧
      (mergedCount d fn).isSome) := by
  have hmain : ∀ q ∈ (runLoop ms d (get_pdf_files d none)).fileToIndex,
      pyIsDigit (mergeIndexPfx q.1) = true ∧
      q.2 = toString (digitsVal (mergeIndexPfx q.1).toList) ∧
      (mergedCount d q.1).isSome := by
    intro q hq
    rcases foldl_fileToIndex_mem ms d (get_pdf_files d none) initLoopState q hq with
      habs | ⟨hmem, hkey, hsome⟩
    · simp [initLoopState] at habs
    obtain ⟨hd, hk⟩ := fileIndexKey_some hkey
    exact ⟨hd, hk, hsome⟩
  refine ⟨hmain, ?_⟩
  intro idx fn hget
  rcases indexToFile_fold_mem ((runLoop ms d (get_pdf_files d none)).fileToIndex)
      (get_pdf_files d none) [] (idx, fn) (dget_mem hget) with habs | ⟨hmem, hf2i, hne⟩
  · simp at habs
  have := hmain (fn, idx) (dget_mem hf2i)
  exact ⟨this.1, this.2.1, this.2.2⟩

/-- Directory with a zero-padded numeric fragment and a hash-named
fragment for the C10 witness. -/
def c10Dir : Dir :=
  ⟨true,
    [⟨"01-a.pdf", true, none, OpenResult.opened 1⟩,
     ⟨"deadbeef-x.pdf", true, some 7, OpenResult.opened 1⟩]⟩

theorem c10_index_map_numeric_witness :
    pyIsDigit (mergeIndexPfx ("01-a.pdf")) = true ∧
      ("1") = toString (digitsVal (mergeIndexPfx ("01-a.pdf")).toList) ∧
      (mergedCount c10Dir ("01-a.pdf")).isSome :=
  (c10_index_map_numeric msPlain c10Dir).1 (("01-a.pdf"), ("1")) (by decide)

/-- Python `str.title()` on ASCII text: the first letter of every
alphabetic run upper-cased, the rest lower-cased. -/
def pyTitleAux : Bool → List Char → List Char
  | _, [] => []
  | prevAlpha, c :: cs =>
    (if c.isAlpha then (if prevAlpha then c.toLower else c.toUpper) else c) ::
      pyTitleAux c.isAlpha cs

def pyTitleStr (s : String) : String := String.mk (pyTitleAux false s.toList)

/-- `_generate_friendly_filename`, translated from the source.  The
exception handler (falling back to `f"{directory_name}_{current_date}.pdf"`)
is unreachable in the model, because none of the string operations can
raise. -/
def generate_friendly_filename (directoryName currentDate : String) : String :=
  let cleanName :=
    if pyContains directoryName ("anthropic.com") then "Claude-Code-Docs"
    else if pyContains directoryName ("github.com") then "GitHub-Docs"
    else if pyContains directoryName ("-") then
      let parts := List.splitOn '-' directoryName.toList
      let contentType := String.mk (parts.getLast?.getD [])
      let p0 := parts.headD []
      if p0.contains '.' then
        let domainParts := List.splitOn '.' p0
        let mainDomain :=
          if domainParts.length > 1 then
            String.mk (domainParts.getD (domainParts.length - 2) [])
          else String.mk (domainParts.headD [])
        pyTitleStr mainDomain ++ ("-") ++ pyTitleStr contentType
      else pyTitleStr contentType
    else pyTitleStr (pyReplace directoryName (".") ("-"))
  cleanName ++ ("_") ++ currentDate ++ (".pdf")

/-- One item of `os.listdir(self.pdf_dir)`: a regular file, or an
immediate subdirectory with its contents. -/
inductive FsItem where
  | file (e : Entry)
  | subdir (name : String) (d : Dir)
deriving Repr, DecidableEq

/-- The base PDF directory for `merge_directory`: whether it exists and
its listed items. -/
structure World where
  present : Bool
  items : List FsItem
deriving Repr, DecidableEq

/-- The base directory viewed as a `Dir` for the root merge: listing is
the same, subdirectories are not regular files and cannot be opened. -/
def rootDirOf (w : World) : Dir :=
  ⟨w.present, w.items.map (fun it =>
    match it with
    | FsItem.file e => e
    | FsItem.subdir nm _ => ⟨nm, false, none, OpenResult.failed ("is a directory")⟩)⟩

/-- The environment inputs of `merge_directory`, abstracted:
`urlparse(rootURL).hostname`, the `datetime.now().strftime('%Y%m%d_%H%M%S')`
timestamp, and the resolved final-output directory path
`self.final_pdf_dir`. -/
structure WalkCfg where
  rootHostname : Option String
  currentDate : String
  finalPdfDir : String
deriving Repr, DecidableEq

/-- `os.path.join` for our two-component uses. -/
def joinPath (a b : String) : String := a ++ ("/") ++ b

/-- `url.hostname.replace('.', '_') if url.hostname else 'unknown'` —
`None` and the empty string are both falsy. -/
def domainLabel (cfg : WalkCfg) : String :=
  match cfg.rootHostname with
  | some h => if h = "" then "unknown" else pyReplace h (".") ("_")
  | none => "unknown"

/-- One iteration of the subdirectory loop of `merge_directory`: skip
non-directories and the reserved names `finalPdf`, `metadata`, `.temp`;
otherwise merge and append the output path on success. -/
def walkStep (ms : MergerState) (cfg : WalkCfg) (acc : List String)
    (it : FsItem) : List String :=
  match it with
  | FsItem.file _ => acc
  | FsItem.subdir nm d =>
    if nm = "finalPdf" ∨ nm = "metadata" ∨ nm = ".temp" then acc
    else
      if (merge_pdfs_stream ms d none).ok then
        acc ++ [joinPath cfg.finalPdfDir (nm ++ ("_") ++ cfg.currentDate ++ (".pdf"))]
      else acc

/-- `merge_directory`, translated from the source.  A missing base
directory raises `FileProcessingError`; with no directory argument the
base directory itself is merged first (output named after the root URL's
hostname) and then every listed subdirectory except the reserved ones
(output named after the subdirectory), collecting the output paths of the
calls that returned `True`, in order.  The per-item exception handler and
the output-directory `os.makedirs` are not observable in the model.
Output files are written into the final-output directory, which the walk
skips, so the listing is unaffected by the writes. -/
def merge_directory (ms : MergerState) (w : World) (cfg : WalkCfg)
    (directoryName : Option String := none) : Except String (List String) :=
  if !w.present then Except.error ("PDF目录不存在")
  else
    match directoryName with
    | some dn =>
      match w.items.findSome? (fun it =>
        match it with
        | FsItem.subdir nm d => if nm = dn then some d else none
        | FsItem.file _ => none) with
      | some d =>
        if (merge_pdfs_stream ms d none).ok then
          Except.ok [joinPath cfg.finalPdfDir (generate_friendly_filename dn cfg.currentDate)]
        else Except.ok []
      | none => Except.ok []
    | none =>
      let rootOut := joinPath cfg.finalPdfDir
        (domainLabel cfg ++ ("_") ++ cfg.currentDate ++ (".pdf"))
      let acc0 := if (merge_pdfs_stream ms (rootDirOf w) none).ok then [rootOut] else []
      Except.ok (w.items.foldl (walkStep ms cfg) acc0)

/-- The output one listed item contributes, as the claim describes it. -/
def walkOut (ms : MergerState) (cfg : WalkCfg) (it : FsItem) : Option String :=
  match it with
  | FsItem.file _ => none
  | FsItem.subdir nm d =>
    if nm = "finalPdf" ∨ nm = "metadata" ∨ nm = ".temp" then none
    else if (merge_pdfs_stream ms d none).ok then
      some (joinPath cfg.finalPdfDir (nm ++ ("_") ++ cfg.currentDate ++ (".pdf")))
    else none

theorem walkStep_foldl (ms : MergerState) (cfg : WalkCfg) (l : List FsItem)
    (acc : List String) :
    l.foldl (walkStep ms cfg) acc = acc ++ l.filterMap (walkOut ms cfg) := by
  induction l generalizing acc with
  | nil => simp
  | cons it its ih =>
    rw [List.foldl_cons, ih, List.filterMap_cons]
    cases it with
    | file e => simp [walkStep, walkOut]
    | subdir nm d =>
      by_cases hres : nm = "finalPdf" ∨ nm = "metadata" ∨ nm = ".temp"
      · simp [walkStep, walkOut, hres]
      · cases hok : (merge_pdfs_stream ms d none).ok with
        | true => simp [walkStep, walkOut, hres, hok]
        | false => simp [walkStep, walkOut, hres, hok]

/-- **C9.** `merge_directory()` with no directory argument merges the
base PDF directory once (output named from the configured root URL's
hostname plus the timestamp) and then every other listed immediate
subdirectory except the reserved `finalPdf`, `metadata` and `.temp`
names (output named from the subdirectory plus the same timestamp), and
returns exactly the output paths of the invocations that returned
`True`, in invocation order. -/
theorem c9_merge_directory (ms : MergerState) (w : World) (cfg : WalkCfg)
    (hw : w.present = true) :
    merge_directory ms w cfg none = Except.ok (
      (if (merge_pdfs_stream ms (rootDirOf w) none).ok then
        [joinPath cfg.finalPdfDir (domainLabel cfg ++ ("_") ++ cfg.currentDate ++ (".pdf"))]
       else []) ++
      w.items.filterMap (walkOut ms cfg)) := by
  unfold merge_directory
  rw [hw]
  simp only [Bool.not_true, Bool.false_eq_true, if_false]
  rw [walkStep_foldl]

/-- Concrete world for the C9 witness: one root file, one reserved
subdirectory, one real subdirectory. -/
def c9World : World :=
  ⟨true,
    [FsItem.file ⟨"1-a.pdf", true, none, OpenResult.opened 1⟩,
     FsItem.subdir ("metadata") ⟨true, []⟩,
     FsItem.subdir ("guide") ⟨true, [⟨"1-b.pdf", true, none, OpenResult.opened 2⟩]⟩]⟩

def c9Cfg : WalkCfg := ⟨some ("docs.example.com"), "20260101_000000", "/pdfs/finalPdf"⟩

theorem c9_merge_directory_witness :
    merge_directory msPlain c9World c9Cfg none = Except.ok (
      (if (merge_pdfs_stream msPlain (rootDirOf c9World) none).ok then
        [joinPath c9Cfg.finalPdfDir
          (domainLabel c9Cfg ++ ("_") ++ c9Cfg.currentDate ++ (".pdf"))]
       else []) ++
      c9World.items.filterMap (walkOut msPlain c9Cfg)) :=
  c9_merge_directory msPlain c9World c9Cfg (by decide)

/-- The candidate-key list in the order the claim states it: raw prefix,
then for a numeric prefix the zero-stripped form, the 2-digit and the
3-digit zero-padded forms. -/
def claimPossibleKeys (pfx : String) : List String :=
  if pyIsDigit pfx then
    [pfx, toString (digitsVal pfx.toList),
     zfill 2 (toString (digitsVal pfx.toList)),
     zfill 3 (toString (digitsVal pfx.toList))]
  else [pfx]

/-- The claim's slug-to-title fallback: strip the extension from the
post-separator portion, replace `'-'` and `'_'` by spaces, capitalize
each word. -/
def slugTitle (namePart : List Char) : String :=
  String.intercalate (" ")
    ((pySplitWs (String.mk
      (((splitextRoot namePart).map (fun c => if c = '-' then ' ' else c)).map
        (fun c => if c = '_' then ' ' else c)))).map pyCapitalize)

/-- The Title Resolver exactly as the claim words it (candidate order
raw, stripped, 2-digit, 3-digit). -/
def claimTitleResolver (filename : String)
    (articleTitles : List (String × String)) : String :=
  let cleaned := stripPuppeteer filename
  match (splitFirst '-' cleaned.toList).2 with
  | none => String.mk (splitextRoot cleaned.toList)
  | some namePart =>
    match (claimPossibleKeys (String.mk (splitFirst '-' cleaned.toList).1)).findSome?
        (fun k => dget articleTitles k) with
    | some t => t
    | none => slugTitle namePart

/-- The Title Resolver as the amended claim words it: identical except
that the 3-digit zero-padded candidate precedes the 2-digit one, matching
the source order `[prefix, str(num), str(num).zfill(3), str(num).zfill(2)]`. -/
def amendedTitleResolver (filename : String)
    (articleTitles : List (String × String)) : String :=
  let cleaned := stripPuppeteer filename
  match (splitFirst '-' cleaned.toList).2 with
  | none => String.mk (splitextRoot cleaned.toList)
  | some namePart =>
    match (possibleKeys (String.mk (splitFirst '-' cleaned.toList).1)).findSome?
        (fun k => dget articleTitles k) with
    | some t => t
    | none => slugTitle namePart

/-- **C6 counterexample.** On `1-x.pdf` with a TitleIndex holding both a
2-digit and a 3-digit form of the key, the code probes the 3-digit form
first and returns `"B"`, while the claim's candidate order (2-digit
before 3-digit) yields `"A"`: the claim, as stated, is false here. -/
theorem c6_counterexample :
    create_bookmark_title ("1-x.pdf") [("01", "A"), ("001", "B")] = "B" ∧
    claimTitleResolver ("1-x.pdf") [("01", "A"), ("001", "B")] = "A" ∧
    ¬(claimTitleResolver ("1-x.pdf") [("01", "A"), ("001", "B")] =
        create_bookmark_title ("1-x.pdf") [("01", "A"), ("001", "B")]) := by
  decide

/-- **C6 (amended).** For every filename, `_create_bookmark_title`
returns the TitleIndex value of the first candidate present in the index,
the candidates being the raw prefix and — when it is numeric — the
zero-stripped, 3-digit-padded and 2-digit-padded forms, in that order;
with the slug-to-title fallback otherwise.  `1-anything.pdf` with
`{"1": "Intro"}` resolves to `"Intro"`, `99-my-page.pdf` with no matching
key resolves to `"My Page"`, and the keys `"1"`, `"01"`, `"001"` all
resolve against an entry stored under any one of those forms. -/
theorem c6_title_resolution :
    (∀ (filename : String) (articleTitles : List (String × String)),
      create_bookmark_title filename articleTitles =
        amendedTitleResolver filename articleTitles) ∧
    create_bookmark_title ("1-anything.pdf") [("1", "Intro")] = "Intro" ∧
    create_bookmark_title ("99-my-page.pdf") [("1", "Intro")] = "My Page" ∧
    (∀ (a b v : String), a ∈ [("1"), ("01"), ("001")] → b ∈ [("1"), ("01"), ("001")] →
      create_bookmark_title (a ++ ("-x.pdf")) [(b, v)] = v) := by
  refine ⟨?_, by decide, by decide, ?_⟩
  · intro filename articleTitles
    unfold create_bookmark_title amendedTitleResolver
    rfl
  · intro a b v ha hb
    simp only [List.mem_cons, List.not_mem_nil, or_false] at ha hb
    rcases ha with rfl | rfl | rfl <;> rcases hb with rfl | rfl | rfl <;> rfl

theorem c6_title_resolution_witness :
    create_bookmark_title (("01") ++ ("-x.pdf")) [(("001"), ("T"))] = "T" :=
  c6_title_resolution.2.2.2 ("01") ("001") ("T") (by decide) (by decide)

theorem foldl_append_eq_join {α β : Type} (g : β → List α) (l : List β) (acc : List α) :
    l.foldl (fun acc b => acc ++ g b) acc = acc ++ List.flatten (l.map g) := by
  induction l generalizing acc with
  | nil => simp
  | cons b bs ih =>
    rw [List.foldl_cons, ih]
    simp

theorem flatToc_not_empty (ms : MergerState) (d : Dir) (files : List String)
    (h : 0 < sumMerged d files) : (flatToc ms d 0 files).isEmpty = false := by
  obtain ⟨f, hf, hs⟩ := (sumMerged_pos_iff d files).mp h
  have hmem : f ∈ files.filter (fun g => (mergedCount d g).isSome) :=
    List.mem_filter.mpr ⟨hf, hs⟩
  have hlen : 0 < (flatToc ms d 0 files).length := by
    rw [flatToc_length]
    exact List.length_pos.mpr (List.ne_nil_of_mem hmem)
  cases hfe : (flatToc ms d 0 files).isEmpty with
  | false => rfl
  | true =>
    rw [List.isEmpty_iff] at hfe
    rw [hfe] at hlen
    simp at hlen

theorem chosenToc_flat (ms : MergerState) (files : List String) (st : LoopState)
    (h : ms.sectionStructure = none ∨
      build_hierarchical_toc ms files st.pageCounts st.fileToIndex = none ∨
      build_hierarchical_toc ms files st.pageCounts st.fileToIndex = some []) :
    chosenToc ms files st = st.toc := by
  unfold chosenToc
  cases hss : ms.sectionStructure with
  | none => rfl
  | some ss =>
    rcases h with h | h | h
    · rw [hss] at h
      exact Option.noConfusion h
    · rw [h]
    · rw [h]
      show (if ([] : List TocEntry).isEmpty = true then st.toc else []) = st.toc
      rfl

/-- **C5.** Given a loaded SectionStructure with a `sections` list, the
Hierarchy Builder produces exactly the concatenation, in listed order, of
each section's entries — nothing for a section with no resolvable page
reference, otherwise a level-1 entry at the first resolved fragment's
start page followed by one level-2 entry per resolved reference (title
`TitleIndex[index]` or `"Page <index>"`, target that fragment's start
page), skipping references whose index matches no merged fragment; the
builder yields `None` when the structure is absent or has no `sections`
key; and a merge whose builder yields `None` or only empty sections sets
the flat TOC on the saved document. -/
theorem c5_hierarchy_builder :
    (∀ (ms : MergerState) (files : List String) (pc : List (String × Nat))
        (f2i : List (String × String)) (ss : SectionStructure) (secs : List TocSection),
      ms.sectionStructure = some ss → ss.sections = some secs →
      build_hierarchical_toc ms files pc f2i =
        some (List.flatten (secs.map (sectionEntries ms.articleTitles
          (indexToFile files f2i) (filePageMap files pc))))) ∧
    (∀ (ms : MergerState) (files : List String) (pc : List (String × Nat))
        (f2i : List (String × String)),
      (ms.sectionStructure = none ∨
        (∃ ss, ms.sectionStructure = some ss ∧ ss.sections = none)) →
      build_hierarchical_toc ms files pc f2i = none) ∧
    (∀ (ms : MergerState) (d : Dir) (doc : SavedDoc),
      ms.bookmarksEnabled = true →
      (merge_pdfs_stream ms d none).saved = some doc →
      (ms.sectionStructure = none ∨
       build_hierarchical_toc ms (get_pdf_files d none)
         (runLoop ms d (get_pdf_files d none)).pageCounts
         (runLoop ms d (get_pdf_files d none)).fileToIndex = none ∨
       build_hierarchical_toc ms (get_pdf_files d none)
         (runLoop ms d (get_pdf_files d none)).pageCounts
         (runLoop ms d (get_pdf_files d none)).fileToIndex = some []) →
      doc.toc = flatToc ms d 0 (get_pdf_files d none)) := by
  refine ⟨?_, ?_, ?_⟩
  · intro ms files pc f2i ss secs hss hsec
    unfold build_hierarchical_toc
    rw [hss]
    show (match ss.sections with
      | none => none
      | some sections =>
        some (sections.foldl (fun toc sec =>
          toc ++ sectionEntries ms.articleTitles (indexToFile files f2i)
            (filePageMap files pc) sec) [])) = _
    rw [hsec]
    show some _ = some _
    rw [foldl_append_eq_join]
    simp
  · intro ms files pc f2i h
    unfold build_hierarchical_toc
    rcases h with h | ⟨ss, hss, hsec⟩
    · rw [h]
    · rw [hss]
      show (match ss.sections with
        | none => none
        | some sections =>
          some (sections.foldl (fun toc sec =>
            toc ++ sectionEntries ms.articleTitles (indexToFile files f2i)
              (filePageMap files pc) sec) [])) = none
      rw [hsec]
  · intro ms d doc hbm h hflat
    obtain ⟨hne, hz, hdoc⟩ := merge_saved_eq h
    have hmp : (runLoop ms d (get_pdf_files d none)).mergedPages =
        sumMerged d (get_pdf_files d none) := by
      unfold runLoop
      rw [foldl_mergedPages]
      simp [initLoopState]
    have hpos : 0 < sumMerged d (get_pdf_files d none) := by
      rw [hmp] at hz
      omega
    have hct := chosenToc_flat ms (get_pdf_files d none)
      (runLoop ms d (get_pdf_files d none)) hflat
    rw [hdoc]
    simp only [hct, runLoop_toc, hbm, flatToc_not_empty ms d (get_pdf_files d none) hpos]
    simp

/-- Builder inputs for the C5 witness. -/
def c5Secs : List TocSection := [⟨some ("S1"), [⟨some ("1")⟩, ⟨some ("2")⟩]⟩]

theorem c5_hierarchy_builder_witness :
    build_hierarchical_toc c8Ms ["1-a.pdf"] [(("1-a.pdf"), 1)] [(("1-a.pdf"), ("1"))] =
      some (List.flatten (c5Secs.map (sectionEntries c8Ms.articleTitles
        (indexToFile ["1-a.pdf"] [(("1-a.pdf"), ("1"))])
        (filePageMap ["1-a.pdf"] [(("1-a.pdf"), 1)])))) :=
  c5_hierarchy_builder.1 c8Ms ["1-a.pdf"] [(("1-a.pdf"), 1)] [(("1-a.pdf"), ("1"))]
    ⟨some c5Secs⟩ c5Secs (by decide) (by decide)

/-- Duplicate the head of a list — the shape of a section's TOC page
sequence: the level-1 entry repeats the first resolved page's target. -/
def dupHead : List Nat → List Nat
  | [] => []
  | x :: xs => x :: x :: xs

theorem sectionEntries_pages (articleTitles i2f : List (String × String))
    (fpm : List (String × Nat)) (sec : TocSection) :
    (sectionEntries articleTitles i2f fpm sec).map TocEntry.page1 =
      dupHead ((sec.pages.filterMap (resolvePage articleTitles i2f fpm)).map
        (fun (v : String × Nat) => v.2 + 1)) := by
  unfold sectionEntries
  cases hres : sec.pages.filterMap (resolvePage articleTitles i2f fpm) with
  | nil => simp [dupHead]
  | cons v vs => simp [dupHead]

theorem getLast?_dupHead (xs : List Nat) : (dupHead xs).getLast? = xs.getLast? := by
  cases xs with
  | nil => rfl
  | cons x xs2 =>
    show (x :: x :: xs2).getLast? = (x :: xs2).getLast?
    rw [List.getLast?_cons_cons]

theorem head?_flatten_map_dupHead (LS : List (List Nat)) :
    (List.flatten (LS.map dupHead)).head? = (List.flatten LS).head? := by
  induction LS with
  | nil => rfl
  | cons xs LS2 ih =>
    rw [List.map_cons, List.flatten_cons, List.flatten_cons]
    cases xs with
    | nil => simpa [dupHead] using ih
    | cons x xs2 => simp [dupHead]

theorem chain_flatten_dupHead (LS : List (List Nat))
    (h : List.Chain' (fun a b => a ≤ b) (List.flatten LS)) :
    List.Chain' (fun a b => a ≤ b) (List.flatten (LS.map dupHead)) := by
  induction LS with
  | nil => simp
  | cons xs LS2 ih =>
    rw [List.map_cons, List.flatten_cons]
    rw [List.flatten_cons] at h
    rw [List.chain'_append] at h ⊢
    obtain ⟨h1, h2, h3⟩ := h
    refine ⟨?_, ih h2, ?_⟩
    · cases xs with
      | nil => simp [dupHead]
      | cons x xs2 =>
        show List.Chain' (fun a b => a ≤ b) (x :: x :: xs2)
        rw [List.chain'_cons]
        exact ⟨le_refl x, h1⟩
    · intro a ha b hb
      rw [getLast?_dupHead] at ha
      rw [head?_flatten_map_dupHead] at hb
      exact h3 a ha b hb

/-- The resolved target pages of the loaded SectionStructure, flattened
in listing order (sections in listed order, references in listed order),
for the run over directory `d`. -/
def hierPagesSeq (ms : MergerState) (d : Dir) : List Nat :=
  match ms.sectionStructure with
  | none => []
  | some ss =>
    match ss.sections with
    | none => []
    | some secs =>
      List.flatten (secs.map (fun (sec : TocSection) =>
        (sec.pages.filterMap (resolvePage ms.articleTitles
          (indexToFile (get_pdf_files d none)
            ((runLoop ms d (get_pdf_files d none)).fileToIndex))
          (filePageMap (get_pdf_files d none)
            ((runLoop ms d (get_pdf_files d none)).pageCounts)))).map
          (fun (v : String × Nat) => v.2 + 1)))

/-- A merger state whose SectionStructure lists fragment keys in the
reverse of fragment sort order. -/
def c4Ms : MergerState :=
  ⟨[], some ⟨some [⟨some ("S1"), [⟨some ("2")⟩]⟩, ⟨some ("S2"), [⟨some ("1")⟩]⟩]⟩, true⟩

/-- A directory with two one-page fragments for the C4 counterexample. -/
def c4Dir : Dir :=
  ⟨true,
    [⟨"1-a.pdf", true, none, OpenResult.opened 1⟩,
     ⟨"2-b.pdf", true, none, OpenResult.opened 1⟩]⟩

/-- **C4 counterexample.** A SectionStructure that lists fragment keys
out of merge order produces a saved bookmark list whose target pages
decrease: the claim's universal non-decreasing guarantee is false. -/
theorem c4_counterexample :
    (merge_pdfs_stream c4Ms c4Dir none).saved =
      some ⟨2, [⟨1, "S1", 2, 1⟩, ⟨2, "Page 2", 2, 1⟩, ⟨1, "S2", 1, 0⟩, ⟨2, "Page 1", 1, 0⟩]⟩ ∧
    ((merge_pdfs_stream c4Ms c4Dir none).saved.getD ⟨0, []⟩).toc.map TocEntry.page1 =
      [2, 2, 1, 1] ∧
    ¬ List.Chain' (fun a b => a ≤ b)
      (((merge_pdfs_stream c4Ms c4Dir none).saved.getD ⟨0, []⟩).toc.map TocEntry.page1) := by
  refine ⟨by decide, by decide, ?_⟩
  intro hch
  rw [show ((merge_pdfs_stream c4Ms c4Dir none).saved.getD ⟨0, []⟩).toc.map TocEntry.page1 =
      [2, 2, 1, 1] from by decide] at hch
  rw [List.chain'_cons, List.chain'_cons] at hch
  omega

theorem flatToc_chain (ms : MergerState) (d : Dir) (s : Nat) (files : List String) :
    List.Chain' (fun a b => a ≤ b) ((flatToc ms d s files).map TocEntry.page1) := by
  induction files generalizing s with
  | nil => simp [flatToc]
  | cons f fs ih =>
    simp only [flatToc]
    cases h : mergedCount d f with
    | none => exact ih s
    | some n =>
      simp only [List.map_cons]
      rw [List.chain'_cons']
      refine ⟨?_, ih (s + n)⟩
      intro y hy
      rw [List.head?_map] at hy
      cases hh : (flatToc ms d (s + n) fs).head? with
      | none =>
        rw [hh] at hy
        simp at hy
      | some e2 =>
        rw [hh] at hy
        simp only [Option.map_some', Option.mem_def, Option.some.injEq] at hy
        subst hy
        have hmem : e2 ∈ flatToc ms d (s + n) fs := by
          cases hfl : flatToc ms d (s + n) fs with
          | nil => rw [hfl] at hh; exact absurd hh (by simp)
          | cons a l =>
            rw [hfl] at hh
            simp only [List.head?_cons, Option.some.injEq] at hh
            rw [← hh]
            exact List.mem_cons_self _ _
        have hb := flatToc_bounds ms d (s + n) fs e2 hmem
        have hn0 := mergedCount_ne_zero h
        show s + 1 ≤ e2.page1
        omega

/-- **C4 (amended).** The bookmark entry list set on the merged document
has non-decreasing target page numbers — unconditionally in flat mode,
and in hierarchical mode whenever the SectionStructure's resolved target
pages are non-decreasing in listing order (as they are when sections list
fragment keys in merge order).  The original claim's guarantee for
*every* SectionStructure does not hold (see the counterexample). -/
theorem c4_toc_monotone (ms : MergerState) (d : Dir) (doc : SavedDoc)
    (h : (merge_pdfs_stream ms d none).saved = some doc)
    (hmono : List.Chain' (fun a b => a ≤ b) (hierPagesSeq ms d)) :
    List.Chain' (fun a b => a ≤ b) (doc.toc.map TocEntry.page1) := by
  obtain ⟨hne, hz, hdoc⟩ := merge_saved_eq h
  rw [hdoc]
  simp only
  by_cases hbm : (ms.bookmarksEnabled &&
      !(chosenToc ms (get_pdf_files d none) (runLoop ms d (get_pdf_files d none))).isEmpty)
      = true
  swap
  · rw [if_neg hbm]
    simp
  rw [if_pos hbm]
  rcases chosenToc_cases ms (get_pdf_files d none) (runLoop ms d (get_pdf_files d none))
    with hflat | ⟨l, hb, hcl⟩
  · rw [hflat, runLoop_toc]
    exact flatToc_chain ms d 0 (get_pdf_files d none)
  · rw [hcl]
    obtain ⟨ss, secs, hss, hsec, hl⟩ := build_hier_some hb
    rw [hl, foldl_append_eq_join, List.nil_append, List.map_flatten, List.map_map]
    have hpg : (List.map TocEntry.page1 ∘ sectionEntries ms.articleTitles
        (indexToFile (get_pdf_files d none)
          ((runLoop ms d (get_pdf_files d none)).fileToIndex))
        (filePageMap (get_pdf_files d none)
          ((runLoop ms d (get_pdf_files d none)).pageCounts))) =
        (fun (sec : TocSection) => dupHead ((sec.pages.filterMap (resolvePage ms.articleTitles
          (indexToFile (get_pdf_files d none)
            ((runLoop ms d (get_pdf_files d none)).fileToIndex))
          (filePageMap (get_pdf_files d none)
            ((runLoop ms d (get_pdf_files d none)).pageCounts)))).map
          (fun (v : String × Nat) => v.2 + 1))) := by
      funext sec
      exact sectionEntries_pages _ _ _ sec
    rw [hpg]
    have hseq : hierPagesSeq ms d = List.flatten (secs.map (fun (sec : TocSection) =>
        (sec.pages.filterMap (resolvePage ms.articleTitles
          (indexToFile (get_pdf_files d none)
            ((runLoop ms d (get_pdf_files d none)).fileToIndex))
          (filePageMap (get_pdf_files d none)
            ((runLoop ms d (get_pdf_files d none)).pageCounts)))).map
          (fun (v : String × Nat) => v.2 + 1))) := by
      unfold hierPagesSeq
      rw [hss]
      show (match ss.sections with
        | none => []
        | some secs => List.flatten (secs.map (fun (sec : TocSection) =>
            (sec.pages.filterMap (resolvePage ms.articleTitles
              (indexToFile (get_pdf_files d none)
                ((runLoop ms d (get_pdf_files d none)).fileToIndex))
              (filePageMap (get_pdf_files d none)
                ((runLoop ms d (get_pdf_files d none)).pageCounts)))).map
              (fun (v : String × Nat) => v.2 + 1)))) = _
      rw [hsec]
    rw [hseq] at hmono
    have := chain_flatten_dupHead _ hmono
    rw [List.map_map] at this
    exact this

theorem c4_toc_monotone_witness :
    List.Chain' (fun a b => a ≤ b)
      (((⟨5, [TocEntry.mk 1 ("S1") 1 0, TocEntry.mk 2 ("Page 1") 1 0,
        TocEntry.mk 2 ("Page 2") 3 2]⟩ : SavedDoc)).toc.map TocEntry.page1) := by
  apply c4_toc_monotone c8Ms c2Dir
  · decide
  · rw [show hierPagesSeq c8Ms c2Dir = [1, 3] from by decide]
    rw [List.chain'_cons]
    exact ⟨by omega, List.chain'_singleton _⟩
